import Mathlib

/-!
Verification of the go-linebot session/review orchestrator.

The definitions below are shallow embeddings of the Python sources:
  * `GoLinebot.place_stone`, `GoLinebot.get_group_and_liberties` embed
    `gcp_linebot_localhost_katago/gcp_linebot/handlers/go_engine.py` (`GoBoard`);
  * `GoLinebot.restore_move` embeds the replay loop of
    `restore_game_from_sgf_object` / `restore_game_from_sgf_file`;
  * `GoLinebot.filter_critical_moves` / `get_top_score_loss_moves` embed
    `src/handlers/sgf_handler.py`;
  * `GoLinebot.webhook` embeds the webhook endpoint of `src/main.py` and
    `gcp_linebot_modal_katago/gcp_linebot/main.py` (identical logic);
  * `GoLinebot.run_katago_gtp_parse` embeds the response parsing of
    `modal_katago/handlers/katago_handler.py::run_katago_gtp_next_move`;
  * the session, load-truncate and messaging models embed
    `gcp_linebot_modal_katago/gcp_linebot/handlers/line_handler.py`.

Machine integers do not overflow in any of the embedded code paths
(indices are all below 19, counts below 400), so Nat is used throughout;
engine score fields are modelled by rationals.
-/

namespace GoLinebot

/-! ## Board model (go_engine.py `GoBoard`)

The Python board is a 19x19 list of lists holding 0 (empty), 1 (black),
2 (white).  We model it as a total function from coordinates to Nat; cells
outside the 19x19 range are never written and stay 0. -/

abbrev Pos := Nat × Nat

abbrev Board := Pos → Nat

def boardSize : Nat := 19

def inBoard (p : Pos) : Prop := p.1 < boardSize ∧ p.2 < boardSize

instance (p : Pos) : Decidable (inBoard p) := by
  unfold inBoard; infer_instance

/-- The four-neighbour scan `[(r-1,c),(r+1,c),(r,c-1),(r,c+1)]` of the
Python code together with its `0 <= nr < size and 0 <= nc < size` bound
check (the guard on the decremented coordinates mirrors Python's signed
arithmetic, which Nat subtraction would otherwise truncate). -/
def neighbors (p : Pos) : List Pos :=
  ((if p.1 = 0 then [] else [(p.1 - 1, p.2)]) ++ [(p.1 + 1, p.2)] ++
   (if p.2 = 0 then [] else [(p.1, p.2 - 1)]) ++ [(p.1, p.2 + 1)]).filter
    (fun q => decide (inBoard q))

/-! ## Connected groups and liberties (`get_group_and_liberties`)

The Python method runs a BFS over same-colour neighbours collecting the
stones of the group and the set of distinct empty cells adjacent to it.
We realise the BFS as the least fixed point of one expansion step,
computed with enough fuel (`boardSize * boardSize` cells) for the
iteration to stabilise. -/

def groupStep (b : Board) (color : Nat) (s : Finset Pos) : Finset Pos :=
  s ∪ s.biUnion (fun p => ((neighbors p).filter (fun q => decide (b q = color))).toFinset)

def closure (f : Finset Pos → Finset Pos) : Nat → Finset Pos → Finset Pos
  | 0, s => s
  | n + 1, s => if f s = s then s else closure f n (f s)

/-- The connected same-colour component of `p` (the `visited_stones` set of
the Python BFS). -/
def group (b : Board) (p : Pos) : Finset Pos :=
  closure (groupStep b (b p)) (boardSize * boardSize) {p}

/-- The distinct empty cells adjacent to a set of stones (the `liberties`
set of the Python BFS). -/
def libertiesOf (b : Board) (s : Finset Pos) : Finset Pos :=
  s.biUnion (fun p => ((neighbors p).filter (fun q => decide (b q = 0))).toFinset)

/-- `get_group_and_liberties`: `(set(), 0)` on an empty cell, otherwise the
group together with its number of distinct liberties. -/
def get_group_and_liberties (b : Board) (p : Pos) : Finset Pos × Nat :=
  if b p = 0 then (∅, 0) else (group b p, (libertiesOf b (group b p)).card)

def validFinset : Finset Pos := Finset.range boardSize ×ˢ Finset.range boardSize

/-- One BFS edge: `y` is a neighbour of `x` holding the colour `c`. -/
def stepRel (b : Board) (c : Nat) (x y : Pos) : Prop := y ∈ neighbors x ∧ b y = c

/-! ## `place_stone`

The embedding of `GoBoard.place_stone`.  The Python method takes a
coordinate string; its `parse_coordinates` guard corresponds to the
`inBoard` test here (see `parse_coordinates` below for the string layer).
The method body: reject occupied, reject ko point, tentatively place,
collect the zero-liberty opponent groups around the stone, remove them,
reject suicide (reverting the tentative stone), and finally update the ko
point.  `captured_stones` is a Python list that receives one whole group
per triggering neighbour, so its length counts stones with that
multiplicity (`capturedSizeAt`) while the board update only sees the set
of cells (`capturedSetAt`). -/

def setCell (b : Board) (p : Pos) (v : Nat) : Board :=
  fun q => if q = p then v else b q

def removeStones (b : Board) (s : Finset Pos) : Board :=
  fun q => if q ∈ s then 0 else b q

/-- `opponent = 2 if color == 1 else 1`. -/
def opponentOf (color : Nat) : Nat := if color = 1 then 2 else 1

/-- The group captured via one neighbour `n` of the placed stone: the whole
group of `n` when `n` holds the opponent colour and that group has no
liberties, nothing otherwise. -/
def capturedGroupAt (b1 : Board) (opp : Nat) (n : Pos) : Finset Pos :=
  if b1 n = opp ∧ (get_group_and_liberties b1 n).2 = 0 then
    (get_group_and_liberties b1 n).1
  else ∅

structure GoState where
  board : Board
  koPoint : Option Pos

def tentativeBoard (st : GoState) (p : Pos) (color : Nat) : Board :=
  setCell st.board p color

def capturedSetAt (st : GoState) (p : Pos) (color : Nat) : Finset Pos :=
  ((neighbors p).map
    (capturedGroupAt (tentativeBoard st p color) (opponentOf color))).foldr (· ∪ ·) ∅

/-- The length of the Python `captured_stones` list (one whole group is
appended per triggering neighbour). -/
def capturedSizeAt (st : GoState) (p : Pos) (color : Nat) : Nat :=
  (((neighbors p).map
    (capturedGroupAt (tentativeBoard st p color) (opponentOf color))).map Finset.card).sum

def boardAfterCapture (st : GoState) (p : Pos) (color : Nat) : Board :=
  removeStones (tentativeBoard st p color) (capturedSetAt st p color)

/-- `my_libs` of the just-placed stone, computed on the board after the
captured stones have been removed. -/
def placedLibs (st : GoState) (p : Pos) (color : Nat) : Nat :=
  (get_group_and_liberties (boardAfterCapture st p color) p).2

/-- Row-major enumeration of the board, used to pick the element of a
one-stone captured set (`captured_stones[0]`). -/
def posList : List Pos :=
  (List.range boardSize).flatMap (fun r => (List.range boardSize).map (fun c => (r, c)))

structure PlaceResult where
  ok : Bool
  board : Board
  koPoint : Option Pos
  capturedSet : Finset Pos
  capturedSize : Nat

def place_stone (st : GoState) (p : Pos) (color : Nat) : PlaceResult :=
  if ¬ inBoard p then ⟨false, st.board, st.koPoint, ∅, 0⟩
  else if st.board p ≠ 0 then ⟨false, st.board, st.koPoint, ∅, 0⟩
  else if st.koPoint = some p then ⟨false, st.board, st.koPoint, ∅, 0⟩
  else if placedLibs st p color = 0 ∧ capturedSizeAt st p color = 0 then
    ⟨false, st.board, st.koPoint, ∅, 0⟩
  else
    ⟨true, boardAfterCapture st p color,
     if capturedSizeAt st p color = 1 ∧ placedLibs st p color = 1 then
       (posList.filter (fun q => decide (q ∈ capturedSetAt st p color))).head?
     else none,
     capturedSetAt st p color, capturedSizeAt st p color⟩

/-! ## The liberty invariant

Invariants of the interactive engine: every stone on the board belongs to
a group with at least one liberty, and every cell holds 0, 1 or 2. -/

def allGroupsAlive (b : Board) : Prop :=
  ∀ p : Pos, inBoard p → b p ≠ 0 → 0 < (get_group_and_liberties b p).2

def validColors (b : Board) : Prop :=
  ∀ p : Pos, b p = 0 ∨ b p = 1 ∨ b p = 2

/-! ## Move sequences from the empty board -/

def initialState : GoState := ⟨fun _ => 0, none⟩

/-- One interactive move: the board and ko point of the `place_stone`
result (on failure `place_stone` hands back the unchanged state). -/
def stepMove (st : GoState) (m : Pos × Nat) : GoState :=
  ⟨(place_stone st m.1 m.2).board, (place_stone st m.1 m.2).koPoint⟩

def applyMoves (ms : List (Pos × Nat)) : GoState := ms.foldl stepMove initialState

/-! ## Concrete fixtures used by the witness theorems

`koBoard` is the classic ko shape: black stones on (4,4), (6,4), (5,3),
white stones on (4,5), (6,5), (5,6) and a white stone on (5,4); black
playing (5,5) captures (5,4) and leaves the new stone with one liberty.
`suicideBoard` surrounds the empty corner (0,0) with white stones. -/

def koBoard : Board :=
  setCell (setCell (setCell (setCell (setCell (setCell (setCell (fun _ => 0)
    (4, 4) 1) (6, 4) 1) (5, 3) 1) (4, 5) 2) (6, 5) 2) (5, 6) 2) (5, 4) 2

def koState : GoState := ⟨koBoard, none⟩

def suicideBoard : Board := setCell (setCell (fun _ => 0) (0, 1) 2) (1, 0) 2

def suicideState : GoState := ⟨suicideBoard, none⟩

/-! ## Record replay (`restore_game_from_sgf_object`)

The replay loop of `restore_game_from_sgf_object`
(gcp_linebot_modal_katago line_handler.py, mirrored by
`restore_game_from_sgf_file` in src/src) rebuilds the board by applying
every move node unconditionally: the stone is written to the cell even if
occupied, no ko check is made, zero-liberty opponent neighbours are
removed, and a suicide result is only logged, never reverted.  The loop
performs exactly the capture computation of `place_stone` on the board
with the stone written, so the embedding reuses those helpers; the replay
counts captured stones as the Python `set` does (distinct cells). -/

/-- One iteration of the replay loop: unconditional placement, capture
sweep, and ko-point recomputation.  Returns the board and the new ko
point. -/
def replay_move (b : Board) (p : Pos) (stone : Nat) : Board × Option Pos :=
  (boardAfterCapture ⟨b, none⟩ p stone,
   if (capturedSetAt ⟨b, none⟩ p stone).card = 1 ∧ placedLibs ⟨b, none⟩ p stone = 1
   then (posList.filter (fun q => decide (q ∈ capturedSetAt ⟨b, none⟩ p stone))).head?
   else none)

/-- An SGF main-sequence node: either a node without a move or a move
node carrying `get_move()`'s colour and 0-based (row, col) with row 0 at
the bottom.  `some 1` stands for colour "b", `some 2` for "w"; any other
value models an invalid colour string. -/
inductive SgfNode where
  | plain : SgfNode
  | move (color : Option Nat) (pos : Nat × Nat) : SgfNode
deriving DecidableEq

/-- A game record: root properties and the main sequence. -/
structure SgfRecord where
  rootProps : List (String × String)
  nodes : List SgfNode
deriving DecidableEq

/-- The move nodes of the main sequence in order (nodes whose
`get_move()` has a coordinate). -/
def movesOf (g : SgfRecord) : List (Option Nat × (Nat × Nat)) :=
  g.nodes.filterMap (fun nd =>
    match nd with
    | .plain => none
    | .move c m => some (c, m))

/-- `stone_val`: the SGF colour when valid, else the expected turn
(restore logs a warning and falls back). -/
def stoneValOf (color : Option Nat) (turn : Nat) : Nat :=
  match color with
  | some v => if v = 1 ∨ v = 2 then v else turn
  | none => turn

/-- One node of the replay fold: convert the SGF coordinate (row 0 at the
bottom) to the engine coordinate (row 0 at the top), place, and flip the
turn according to the stone actually placed. -/
def restore_step (acc : Board × Option Pos × Nat) (mv : Option Nat × (Nat × Nat)) :
    Board × Option Pos × Nat :=
  let p : Pos := (18 - mv.2.1, mv.2.2)
  let stone := stoneValOf mv.1 acc.2.2
  let stepped := replay_move acc.1 p stone
  (stepped.1, stepped.2, if stone = 1 then 2 else 1)

/-- The starting turn: black unless the root `PL` property says white. -/
def startTurn (g : SgfRecord) : Nat :=
  match g.rootProps.lookup "PL" with
  | some v => if v = "B" ∨ v = "b" then 1 else if v = "W" ∨ v = "w" then 2 else 1
  | none => 1

/-- `restore_game_from_sgf_object`: replay all move nodes from a fresh
board, returning the board, the ko point and the turn to move. -/
def restore_game_from_sgf_object (g : SgfRecord) : Board × Option Pos × Nat :=
  (movesOf g).foldl restore_step (fun _ => 0, none, startTurn g)

/-! ## Session store (state metadata in GCS) -/

/-- The session metadata dict stored at `target_.../state/game_state.json`
(absent fields are `none`). -/
structure Session where
  game_id : Option String
  current_turn : Option Nat
  vs_ai_mode : Option Bool
deriving DecidableEq

def emptySession : Session := ⟨none, none, none⟩

/-- `save_state_to_gcs` overwrites the stored object with the given
session. -/
def save_state_to_gcs (_store : Option Session) (s : Session) : Option Session :=
  some s

/-- `load_state_from_gcs` returns the stored object, `none` when
absent. -/
def load_state_from_gcs (store : Option Session) : Option Session := store

/-- The state-metadata step of `save_game_sgf`: load the existing state,
set `game_id` and `current_turn`, keep every other field. -/
def save_game_sgf_meta (stored : Option Session) (gid : String) (turn : Nat) : Session :=
  let s := stored.getD emptySession
  { s with game_id := some gid, current_turn := some turn }

/-- `enable_vs_ai_mode`: load the existing state, set `vs_ai_mode := true`,
keep every other field. -/
def enable_vs_ai_mode (stored : Option Session) : Session :=
  let s := stored.getD emptySession
  { s with vs_ai_mode := some true }

def save_game_sgf_state (store : Option Session) (gid : String) (turn : Nat) :
    Option Session :=
  save_state_to_gcs store (save_game_sgf_meta (load_state_from_gcs store) gid turn)

def enable_vs_ai_mode_state (store : Option Session) : Option Session :=
  save_state_to_gcs store (enable_vs_ai_mode (load_state_from_gcs store))

/-! ## Key-move selection (src/handlers/sgf_handler.py)

Per-move stats as far as the selection functions inspect them: the move
index and the optional `score_loss`.  Python floats are modelled by
rationals (the embedded code only compares and never rounds).  Python's
`sorted` is stable; the insertion sorts below keep the original order of
equal keys, `reverse=True` corresponds to the descending comparison. -/

structure MoveStat where
  move : Nat
  score_loss : Option ℚ
deriving DecidableEq

/-- `filter_critical_moves`: keep the moves whose `score_loss` is present
and strictly greater than the threshold (the call site uses the default
threshold 2.0). -/
def filter_critical_moves (moves : List MoveStat) (threshold : ℚ) : List MoveStat :=
  moves.filter (fun m =>
    match m.score_loss with
    | some q => decide (threshold < q)
    | none => false)

/-- Stable insertion for the descending `sorted(..., key=score_loss,
reverse=True)`. -/
def insertScoreDesc (x : MoveStat) : List MoveStat → List MoveStat
  | [] => [x]
  | y :: ys =>
      if x.score_loss.getD 0 < y.score_loss.getD 0 then y :: insertScoreDesc x ys
      else x :: y :: ys

def sortScoreDesc : List MoveStat → List MoveStat
  | [] => []
  | x :: xs => insertScoreDesc x (sortScoreDesc xs)

/-- Stable insertion for the ascending `sorted(..., key=move)`. -/
def insertMoveAsc (x : MoveStat) : List MoveStat → List MoveStat
  | [] => [x]
  | y :: ys =>
      if y.move < x.move then y :: insertMoveAsc x ys
      else x :: y :: ys

def sortMoveAsc : List MoveStat → List MoveStat
  | [] => []
  | x :: xs => insertMoveAsc x (sortMoveAsc xs)

/-- `get_top_score_loss_moves`: keep the moves with a numeric
`score_loss`, sort by `score_loss` descending, take the first `top_n`,
then sort the survivors by move index ascending. -/
def get_top_score_loss_moves (moves : List MoveStat) (top_n : Nat) : List MoveStat :=
  let moves_with_score_loss := moves.filter (fun m => m.score_loss.isSome)
  let sorted_by_score_loss := sortScoreDesc moves_with_score_loss
  let top_moves := sorted_by_score_loss.take top_n
  sortMoveAsc top_moves

/-- The key-move selection of `handle_review_command` (src/src
line_handler.py lines 331-333): critical filter first, then top 20. -/
def handle_review_key_moves (moves : List MoveStat) : List MoveStat :=
  get_top_score_loss_moves (filter_critical_moves moves 2) 20

/-- The spec example: `score_loss` values
`[null, 0.1, 5.0, 3.0, 2.0, 8.0, null]` at move indices 1..7. -/
def exampleMoves : List MoveStat :=
  [⟨1, none⟩, ⟨2, some (mkRat 1 10)⟩, ⟨3, some 5⟩, ⟨4, some 3⟩,
   ⟨5, some 2⟩, ⟨6, some 8⟩, ⟨7, none⟩]

/-! ## Webhook endpoint (src/src/main.py and
gcp_linebot_modal_katago/gcp_linebot/main.py, identical logic)

The handler parses the JSON body, loops over `events`, dispatches valid
message events to `handle_text_message` / `handle_file_message`, and
returns `200 "OK"`; any exception is caught, logged, and answered with a
`500 {"error": "Internal Server Error"}` JSON response.  Exceptions are
modelled with `Except`; the two event handlers are environment
parameters; a missing/unparsable body (request.json() raising) is the
`none` case. -/

structure EventSource where
  type : String
  userId : String
  groupId : String
  roomId : String
deriving DecidableEq

structure WebhookEvent where
  type : String
  source : EventSource
  messageType : String
deriving DecidableEq

/-- `has_valid_source`: the source type matches and the corresponding id
is truthy (non-empty). -/
def hasValidSource (s : EventSource) : Bool :=
  (s.type == "user" && s.userId != "") ||
  (s.type == "group" && s.groupId != "") ||
  (s.type == "room" && s.roomId != "")

/-- The event loop of the webhook body: message events with a valid
source are dispatched by message type; the first exception aborts the
loop. -/
def processEvents (handleText handleFile : WebhookEvent → Except String Unit) :
    List WebhookEvent → Except String Unit
  | [] => .ok ()
  | e :: es =>
      if e.type == "message" && hasValidSource e.source then
        if e.messageType == "text" then
          match handleText e with
          | .ok _ => processEvents handleText handleFile es
          | .error err => .error err
        else if e.messageType == "file" then
          match handleFile e with
          | .ok _ => processEvents handleText handleFile es
          | .error err => .error err
        else processEvents handleText handleFile es
      else processEvents handleText handleFile es

structure HttpResponse where
  status : Nat
  body : String
deriving DecidableEq

/-- The webhook endpoint: `none` models a body on which `request.json()`
raises. -/
def webhook (body : Option (List WebhookEvent))
    (handleText handleFile : WebhookEvent → Except String Unit) : HttpResponse :=
  match body with
  | none => ⟨500, "Internal Server Error"⟩
  | some events =>
      match processEvents handleText handleFile events with
      | .ok _ => ⟨200, "OK"⟩
      | .error _ => ⟨500, "Internal Server Error"⟩

/-- A text-message event from a direct chat, used by the witnesses. -/
def sampleTextEvent : WebhookEvent :=
  ⟨"message", ⟨"user", "U1", "", ""⟩, "text"⟩

def failingHandler : WebhookEvent → Except String Unit :=
  fun _ => .error "boom"

def okHandler : WebhookEvent → Except String Unit :=
  fun _ => .ok ()

/-! ## Genmove response parsing
(modal_katago/handlers/katago_handler.py::run_katago_gtp_next_move)

The function splits KataGo's stdout into lines, collects the GTP
responses (stripped lines starting with `=` for success or `?` for
error, with their line numbers), anchors on the last line that contains
"genmove" outside a response, takes the first response after that line,
and otherwise falls back to the last non-empty `=` response scanning from
the end (stopping at a `?`), finally mapping `pass`/`resign` to explicit
failures.  Python string operations are modelled on `List Char`; the
Python falsy empty string registers `move`/`error_response` are modelled
by `""` = unset. -/

/-- `str.strip()` on a character list. -/
def stripChars (l : List Char) : List Char :=
  ((l.dropWhile Char.isWhitespace).reverse.dropWhile Char.isWhitespace).reverse

/-- The stripped characters of one stdout line. -/
def stripLine (s : String) : List Char := stripChars s.toList

def startsWithList : List Char → List Char → Bool
  | [], _ => true
  | _ :: _, [] => false
  | p :: ps, c :: cs => p == c && startsWithList ps cs

def containsList (pat : List Char) : List Char → Bool
  | [] => startsWithList pat []
  | c :: cs => startsWithList pat (c :: cs) || containsList pat cs

def genmoveChars : List Char := ['g', 'e', 'n', 'm', 'o', 'v', 'e']

/-- `"genmove" in line_stripped.lower() and not line_stripped.startswith('=')`. -/
def isGenmoveCmdLine (line : String) : Bool :=
  let s := stripLine line
  containsList genmoveChars (s.map Char.toLower) && !(startsWithList ['='] s)

/-- The GTP response carried by one line: `=` success or `?` error with
the stripped response text. -/
def lineResponse (line : String) : Option (Bool × List Char) :=
  match stripLine line with
  | '=' :: rest => some (true, stripChars rest)
  | '?' :: rest => some (false, stripChars rest)
  | _ => none

/-- All responses in order with their line numbers. -/
def gtpResponses (lines : List String) : List (Bool × List Char × Nat) :=
  lines.enum.filterMap (fun il =>
    (lineResponse il.2).map (fun r => (r.1, r.2, il.1)))

/-- The index of the last line containing a `genmove` command (`-1`
modelled as `none`). -/
def lastGenmoveLine (lines : List String) : Option Nat :=
  lines.enum.foldl (fun acc il => if isGenmoveCmdLine il.2 then some il.1 else acc) none

/-- The first response strictly after the anchored command line. -/
def firstResponseAfter : List (Bool × List Char × Nat) → Nat → Option (Bool × List Char)
  | [], _ => none
  | r :: rs, g => if r.2.2 > g then some (r.1, r.2.1) else firstResponseAfter rs g

/-- The reversed-scan of the fallback: the head of the argument is the
last response; a non-empty `=` yields the move, a `?` yields the error
(and stops), an empty `=` is skipped. -/
def scanBack : List (Bool × List Char) → Option (Bool × List Char)
  | [] => none
  | r :: rs =>
      if r.1 && !(stripChars r.2).isEmpty then some (true, r.2)
      else if !r.1 then some (false, r.2)
      else scanBack rs

def fallbackScanTriples (resps : List (Bool × List Char × Nat)) : String × String :=
  match scanBack ((resps.map (fun r => (r.1, r.2.1))).reverse) with
  | some (true, t) => (String.mk t, "")
  | some (false, e) => ("", String.mk e)
  | none => ("", "")

inductive GtpOutcome where
  | ok (move : String)
  | error (msg : String)
deriving DecidableEq

def passChars : List Char := ['p', 'a', 's', 's']

def resignChars : List Char := ['r', 'e', 's', 'i', 'g', 'n']

def noMoveMsg : String := "Could not find move in KataGo GTP output"

/-- The final checks of the parser: a non-empty `error_response` wins, a
missing move is reported, `pass`/`resign` become explicit failures. -/
def finalOutcome (mv err : String) : GtpOutcome :=
  if err ≠ "" then .error err
  else if mv = "" then .error noMoveMsg
  else if mv.toList.map Char.toLower = passChars ∨
      mv.toList.map Char.toLower = resignChars then
    .error ("KataGo returned " ++ mv)
  else .ok mv

/-- The response-parsing stage of `run_katago_gtp_next_move`, applied to
the lines of the engine's stdout. -/
def run_katago_gtp_parse (lines : List String) : GtpOutcome :=
  let responses := gtpResponses lines
  let primary : Option (Bool × List Char) :=
    match lastGenmoveLine lines with
    | some g => firstResponseAfter responses g
    | none => none
  let after1 : String × String :=
    match primary with
    | some (true, t) => (String.mk t, "")
    | some (false, e) => ("", String.mk e)
    | none => ("", "")
  let after2 : String × String :=
    if after1.1 = "" ∧ after1.2 = "" ∧ responses ≠ [] then fallbackScanTriples responses
    else after1
  finalOutcome after2.1 after2.2

/-- Modelled from the spec sentence of the claim: the decision taken by
the last non-empty `=` line (scanning the transcript from the end,
stopping at a `?` line, skipping empty `=` lines and non-response
lines). -/
def lastNonEmptyEqDecision : List String → Option (Bool × List Char)
  | [] => none
  | line :: rest =>
      match lastNonEmptyEqDecision rest with
      | some d => some d
      | none =>
          match lineResponse line with
          | some (true, t) => if !(stripChars t).isEmpty then some (true, t) else none
          | some (false, e) => some (false, e)
          | none => none

/-! ## Load-first-N (`create_sgf_with_first_n_moves` and
`handle_load_game_by_id_with_moves`, gcp_linebot_modal_katago
line_handler.py)

`create_sgf_with_first_n_moves` builds a fresh record: it copies the
values of the fixed `common_props` list of root properties that the
source record carries and appends one move node per move of the first
`n` moves of the source's main sequence.  The handler is modelled on its
store/session effects: the GCS board folder is a map from game id to the
stored record, the freshly generated `game_{int(time.time())}` id is a
parameter, and the LINE replies and board images are outside the
embedding.  The handler rejects (replies an error and returns without
writing) exactly when the requested count exceeds the source's move
count; otherwise it uploads the truncated record under the new id,
replays it with `restore_game_from_sgf_object`, and overwrites the
session with the new game id, the replayed turn, and the preserved
`vs_ai_mode`. -/

/-- The root properties copied by `create_sgf_with_first_n_moves`. -/
def common_props : List String :=
  ["SZ", "KM", "RU", "DT", "PB", "PW", "RE", "HA", "PL", "FF", "CA", "GM", "AP"]

/-- `create_sgf_with_first_n_moves`: copy the common root properties the
source has, keep the first `n` moves. -/
def create_sgf_with_first_n_moves (g : SgfRecord) (n : Nat) : SgfRecord :=
  { rootProps := common_props.filterMap (fun prop =>
      (g.rootProps.lookup prop).map (fun v => (prop, v))),
    nodes := ((movesOf g).take n).map (fun mv => SgfNode.move mv.1 mv.2) }

/-- The SGF files stored in the GCS boards folder, by game id. -/
def GameStore := String → Option SgfRecord

/-- `total_moves = sum(1 for node in sequence if node.get_move()[1] is not None)`. -/
def countMoves (g : SgfRecord) : Nat := (movesOf g).length

/-- The store/session effect of `handle_load_game_by_id_with_moves`:
`none` models the early-return reply paths (unknown game id, too few
moves). -/
def handle_load_game_by_id_with_moves (store : GameStore) (sess : Option Session)
    (source_game_id : String) (move_count : Nat) (new_game_id : String) :
    Option (GameStore × Option Session) :=
  match store source_game_id with
  | none => none
  | some g =>
      if move_count > countMoves g then none
      else
        let truncated := create_sgf_with_first_n_moves g move_count
        let store2 : GameStore := fun k =>
          if k = new_game_id then some truncated else store k
        let restored := restore_game_from_sgf_object truncated
        let vs_ai_mode := (load_state_from_gcs sess).elim false
          (fun s => s.vs_ai_mode.getD false)
        some (store2,
          save_state_to_gcs sess
            ⟨some new_game_id, some restored.2.2, some vs_ai_mode⟩)

/-- A stored record used by the load-first-N witness: three moves (black
D-ish, white, black) and one non-copied root property. -/
def sampleLoadRec : SgfRecord :=
  ⟨[("KM", "6.5"), ("XX", "drop")],
   [SgfNode.move (some 1) (3, 3), SgfNode.plain,
    SgfNode.move (some 2) (2, 2), SgfNode.move (some 1) (5, 5)]⟩

def sampleLoadStore : GameStore :=
  fun k => if k = "game_A" then some sampleLoadRec else none

/-! ## Reply-token survival across the genmove hop
(gcp_linebot_modal_katago line_handler.py `handle_board_move`,
`send_message`; main.py `callback_get_ai_next_move`)

The two functions are modelled by the LINE/Modal effects they emit: each
`reply_message`/`push_message` request and each `spawn` of the Modal
genmove function with its keyword payload.  The results of the calls the
handlers make (engine, GCS, config, URL validation, the LINE platform's
acceptance of the reply token) are the environment records; board and
SGF bookkeeping stays with the earlier sections. -/

/-- A LINE message inside one outgoing request. -/
inductive LineMsg where
  | image (url : String)
  | text (t : String)
deriving DecidableEq

/-- An observable messaging effect of the move handler and the genmove
callback: one `reply_message` call, one `push_message` call, or one
`spawn` of the Modal genmove function with its keyword payload. -/
inductive Effect where
  | reply (token : Option String) (msgs : List LineMsg)
  | push (target : String) (msgs : List LineMsg)
  | spawnGenmove (sgfGcsPath : String) (callbackUrl : String) (targetId : String)
      (currentTurn : Nat) (replyToken : Option String) (userBoardImageUrl : String)
deriving DecidableEq

/-- `send_message`: prefer `reply_message` when a token is present; when
the LINE API rejects the token as expired (ApiException 400/410, modelled
by `tokenValid = false`) fall back to `push_message`. -/
def send_message (target_id : String) (reply_token : Option String)
    (tokenValid : Bool) (messages : List LineMsg) : List Effect :=
  match reply_token with
  | some tok =>
      if tokenValid then [Effect.reply (some tok) messages]
      else [Effect.push target_id messages]
  | none => [Effect.push target_id messages]

/-- The environment of one `handle_board_move` run: the results of the
engine call, the SGF save, the image upload and the configuration
lookups. -/
structure MoveEnv where
  placeOk : Bool
  placeMsg : String
  sgfGcsPath : Option String
  imageUrl : String
  imageUrlValid : Bool
  vsAiMode : Bool
  modalConfigured : Bool
  callbackUrl : String
  aiTurn : Nat
deriving DecidableEq

/-- The messaging skeleton of `handle_board_move`. -/
def handle_board_move (env : MoveEnv) (target_id : String)
    (reply_token : Option String) : List Effect :=
  if env.placeOk = false then
    [Effect.reply reply_token [LineMsg.text ("提示：" ++ env.placeMsg)]]
  else if env.imageUrlValid then
    if env.vsAiMode then
      if env.modalConfigured then
        match env.sgfGcsPath with
        | some p =>
            [Effect.spawnGenmove p env.callbackUrl target_id env.aiTurn
              reply_token env.imageUrl]
        | none => [Effect.reply reply_token [LineMsg.image env.imageUrl]]
      else [Effect.reply reply_token [LineMsg.image env.imageUrl]]
    else [Effect.reply reply_token [LineMsg.image env.imageUrl]]
  else
    [Effect.reply reply_token
      [LineMsg.text ("✅ " ++ env.placeMsg ++
        "\n\n⚠️ 圖片 URL 無效，請檢查 GCS_BUCKET_NAME 設定")]]

/-- The callback request body and the results of the external calls the
endpoint makes. -/
structure CallbackEnv where
  status : String
  move : Option String
  currentTurn : Nat
  errorText : String
  userBoardImageUrl : Option String
  userUrlValid : Bool
  coordsOk : Bool
  placeOk : Bool
  placeMsg : String
  aiImageUrl : String
  aiImageUrlValid : Bool
deriving DecidableEq

/-- `if user_board_image_url and is_valid_https_url(user_board_image_url)`:
the user's board image leads each bundle when present and valid. -/
def userImagePrefix (env : CallbackEnv) : List LineMsg :=
  match env.userBoardImageUrl with
  | some u => if env.userUrlValid then [LineMsg.image u] else []
  | none => []

/-- The messaging skeleton of `callback_get_ai_next_move`. -/
def callback_get_ai_next_move (env : CallbackEnv) (target_id : String)
    (reply_token : Option String) (tokenValid : Bool) : List Effect :=
  if env.status = "" ∨ target_id = "" then []
  else if env.status = "failed" then
    send_message target_id reply_token tokenValid
      (userImagePrefix env ++ [LineMsg.text ("❌ AI 思考失敗：" ++ env.errorText)])
  else if env.move.getD "" = "" then
    send_message target_id reply_token tokenValid
      (userImagePrefix env ++ [LineMsg.text "❌ AI 思考完成但無法取得落子位置"])
  else
    let move := env.move.getD ""
    if env.coordsOk = false then
      send_message target_id reply_token tokenValid
        (userImagePrefix env ++
          [LineMsg.text ("❌ AI 落子失敗：座標格式錯誤 (" ++ move ++ ")")])
    else if env.placeOk = false then
      send_message target_id reply_token tokenValid
        (userImagePrefix env ++ [LineMsg.text ("❌ AI 落子失敗：" ++ env.placeMsg)])
    else
      let nextTurn := if env.currentTurn = 1 then 2 else 1
      let turnText := if nextTurn = 1 then "黑" else "白"
      if env.aiImageUrlValid then
        send_message target_id reply_token tokenValid
          (userImagePrefix env ++
            [LineMsg.text ("🤖 AI 下在 " ++ move),
             LineMsg.image env.aiImageUrl,
             LineMsg.text ("現在輪到您（" ++ turnText ++ "）下棋。")])
      else
        send_message target_id reply_token tokenValid
          (userImagePrefix env ++
            [LineMsg.text ("🤖 AI 下在 " ++ move ++ "\n\n現在輪到您（" ++
              turnText ++ "）下棋。\n\n⚠️ 圖片 URL 無效")])

def sampleMoveEnv : MoveEnv :=
  ⟨true, "落子成功", some "gs://bucket/game.sgf", "https://img/user.png", true,
   true, true, "https://callback", 2⟩

def sampleCallbackEnv : CallbackEnv :=
  ⟨"success", some "Q16", 2, "", some "https://img/user.png", true,
   true, true, "", "https://img/ai.png", true⟩

lemma mem_neighbors_iff {p q : Pos} :
    q ∈ neighbors p ↔ inBoard q ∧
      ((q.1 + 1 = p.1 ∧ q.2 = p.2) ∨ (p.1 + 1 = q.1 ∧ q.2 = p.2) ∨
       (q.2 + 1 = p.2 ∧ q.1 = p.1) ∨ (p.2 + 1 = q.2 ∧ q.1 = p.1)) := by
  obtain ⟨a, b⟩ := p
  obtain ⟨x, y⟩ := q
  simp only [neighbors, List.mem_filter, List.mem_append, decide_eq_true_eq]
  constructor
  · rintro ⟨hmem, hin⟩
    refine ⟨hin, ?_⟩
    rcases hmem with ((h | h) | h) | h
    · (split at h <;> simp_all [Prod.ext_iff]); all_goals omega
    · simp_all [Prod.ext_iff]
    · (split at h <;> simp_all [Prod.ext_iff]); all_goals omega
    · simp_all [Prod.ext_iff]
  · rintro ⟨hin, h⟩
    refine ⟨?_, hin⟩
    rcases h with ⟨h1, h2⟩ | ⟨h1, h2⟩ | ⟨h1, h2⟩ | ⟨h1, h2⟩
    · left; left; left
      have : a ≠ 0 := by omega
      simp [this, Prod.ext_iff]; omega
    · left; left; right; simp [Prod.ext_iff]; omega
    · left; right
      have : b ≠ 0 := by omega
      simp [this, Prod.ext_iff]; omega
    · right; simp [Prod.ext_iff]; omega

lemma inBoard_of_mem_neighbors {p q : Pos} (h : q ∈ neighbors p) : inBoard q :=
  (mem_neighbors_iff.1 h).1

lemma not_mem_neighbors_self (p : Pos) : p ∉ neighbors p := by
  intro h
  rcases mem_neighbors_iff.1 h with ⟨-, h | h | h | h⟩ <;> omega

lemma mem_neighbors_symm {p q : Pos} (hp : inBoard p) (h : q ∈ neighbors p) :
    p ∈ neighbors q := by
  rcases mem_neighbors_iff.1 h with ⟨hq, hrel⟩
  refine mem_neighbors_iff.2 ⟨hp, ?_⟩
  tauto

lemma mem_validFinset {p : Pos} : p ∈ validFinset ↔ inBoard p := by
  simp [validFinset, inBoard, Finset.mem_product]

lemma card_validFinset : validFinset.card = boardSize * boardSize := by
  simp [validFinset]

lemma subset_groupStep (b : Board) (c : Nat) (s : Finset Pos) : s ⊆ groupStep b c s :=
  Finset.subset_union_left

lemma groupStep_subset_valid {b : Board} {c : Nat} {s : Finset Pos}
    (hs : s ⊆ validFinset) : groupStep b c s ⊆ validFinset := by
  refine Finset.union_subset hs ?_
  intro q hq
  rcases Finset.mem_biUnion.1 hq with ⟨x, -, hx⟩
  rcases List.mem_filter.1 (List.mem_toFinset.1 hx) with ⟨hmem, -⟩
  exact mem_validFinset.2 (inBoard_of_mem_neighbors hmem)

lemma subset_closure {f : Finset Pos → Finset Pos} (hf : ∀ s, s ⊆ f s) :
    ∀ n s, s ⊆ closure f n s := by
  intro n
  induction n with
  | zero => intro s; simp [closure]
  | succ n ih =>
      intro s
      rw [closure]
      split
      · exact Finset.Subset.refl s
      · exact (hf s).trans (ih (f s))

lemma closure_subset {f : Finset Pos → Finset Pos} {U : Finset Pos}
    (hU : ∀ s, s ⊆ U → f s ⊆ U) :
    ∀ n s, s ⊆ U → closure f n s ⊆ U := by
  intro n
  induction n with
  | zero => intro s hs; simpa [closure] using hs
  | succ n ih =>
      intro s hs
      rw [closure]
      split
      · exact hs
      · exact ih (f s) (hU s hs)

lemma closure_isFixed {f : Finset Pos → Finset Pos} (hf : ∀ s, s ⊆ f s)
    {U : Finset Pos} (hU : ∀ s, s ⊆ U → f s ⊆ U) :
    ∀ n s, s ⊆ U → U.card ≤ n + s.card → f (closure f n s) = closure f n s := by
  intro n
  induction n with
  | zero =>
      intro s hs hcard
      have hseq : s = U := Finset.eq_of_subset_of_card_le hs (by simpa using hcard)
      have h1 : f s ⊆ s := hseq ▸ hU s hs
      simpa [closure] using Finset.Subset.antisymm h1 (hf s)
  | succ n ih =>
      intro s hs hcard
      rw [closure]
      split
      · next h => exact h
      · next h =>
          refine ih (f s) (hU s hs) ?_
          have hlt : s.card < (f s).card :=
            Finset.card_lt_card (Finset.ssubset_iff_subset_ne.2 ⟨hf s, fun he => h he.symm⟩)
          omega

lemma mem_groupStep_iff {b : Board} {c : Nat} {s : Finset Pos} {q : Pos} :
    q ∈ groupStep b c s ↔ q ∈ s ∨ ∃ x ∈ s, stepRel b c x q := by
  simp [groupStep, stepRel, Finset.mem_biUnion, List.mem_filter, and_assoc]

lemma closure_reach {b : Board} {c : Nat} {p : Pos} :
    ∀ n (s : Finset Pos),
      (∀ x ∈ s, Relation.ReflTransGen (stepRel b c) p x) →
      ∀ q ∈ closure (groupStep b c) n s, Relation.ReflTransGen (stepRel b c) p q := by
  intro n
  induction n with
  | zero => intro s hs q hq; exact hs q (by simpa [closure] using hq)
  | succ n ih =>
      intro s hs q hq
      rw [closure] at hq
      split at hq
      · exact hs q hq
      · refine ih (groupStep b c s) ?_ q hq
        intro x hx
        rcases mem_groupStep_iff.1 hx with hx | ⟨y, hy, hstep⟩
        · exact hs x hx
        · exact (hs y hy).tail hstep

lemma reach_mem_closed {b : Board} {c : Nat} {G : Finset Pos}
    (hG : groupStep b c G = G) {x : Pos} (hx : x ∈ G) :
    ∀ q, Relation.ReflTransGen (stepRel b c) x q → q ∈ G := by
  intro q hq
  induction hq with
  | refl => exact hx
  | tail _ hstep ih =>
      rw [← hG]
      exact mem_groupStep_iff.2 (Or.inr ⟨_, ih, hstep⟩)

lemma groupStep_group_fixed {b : Board} {p : Pos} (hp : inBoard p) :
    groupStep b (b p) (group b p) = group b p := by
  refine closure_isFixed (subset_groupStep b (b p))
    (fun s hs => groupStep_subset_valid hs) _ {p} ?_ ?_
  · simpa [Finset.singleton_subset_iff, mem_validFinset] using hp
  · simp [card_validFinset]

lemma mem_group_iff {b : Board} {p q : Pos} (hp : inBoard p) :
    q ∈ group b p ↔ Relation.ReflTransGen (stepRel b (b p)) p q := by
  constructor
  · intro hq
    refine closure_reach _ {p} ?_ q hq
    intro x hx
    rw [Finset.mem_singleton] at hx
    exact hx ▸ Relation.ReflTransGen.refl
  · intro hq
    exact reach_mem_closed (groupStep_group_fixed hp)
      (subset_closure (subset_groupStep b (b p)) _ {p} (Finset.mem_singleton_self p)) q hq

lemma self_mem_group (b : Board) (p : Pos) : p ∈ group b p :=
  subset_closure (subset_groupStep b (b p)) _ {p} (Finset.mem_singleton_self p)

lemma group_cases {b : Board} {p q : Pos} (hp : inBoard p) (hq : q ∈ group b p) :
    q = p ∨ (inBoard q ∧ b q = b p) := by
  rcases (Relation.ReflTransGen.cases_tail ((mem_group_iff hp).1 hq)) with h | ⟨y, -, hstep⟩
  · exact Or.inl h
  · exact Or.inr ⟨inBoard_of_mem_neighbors hstep.1, hstep.2⟩

lemma group_inBoard {b : Board} {p q : Pos} (hp : inBoard p) (hq : q ∈ group b p) :
    inBoard q := by
  rcases group_cases hp hq with h | ⟨h, -⟩
  · exact h ▸ hp
  · exact h

lemma reach_symm {b : Board} {c : Nat} :
    ∀ {x y : Pos}, Relation.ReflTransGen (stepRel b c) x y → inBoard x → b x = c →
      inBoard y ∧ (y = x ∨ b y = c) ∧ Relation.ReflTransGen (stepRel b c) y x := by
  intro x y h
  induction h with
  | refl => intro hx hc; exact ⟨hx, Or.inl rfl, Relation.ReflTransGen.refl⟩
  | tail _ hstep ih =>
      intro hx hc
      obtain ⟨hyin, hycol, hback⟩ := ih hx hc
      rename_i y' q _
      have hqin : inBoard q := inBoard_of_mem_neighbors hstep.1
      have hy'col : b y' = c := by
        rcases hycol with h | h
        · exact h ▸ hc
        · exact h
      refine ⟨hqin, Or.inr hstep.2, Relation.ReflTransGen.head ⟨?_, hy'col⟩ hback⟩
      exact mem_neighbors_symm hyin hstep.1

lemma group_eq_of_mem {b : Board} {p q : Pos} (hp : inBoard p) (hq : q ∈ group b p) :
    group b q = group b p := by
  rcases group_cases hp hq with h | ⟨hqin, hqcol⟩
  · rw [h]
  · have hreach := (mem_group_iff hp).1 hq
    have hback := (reach_symm hreach hp rfl).2.2
    ext z
    rw [mem_group_iff hqin, mem_group_iff hp, hqcol]
    constructor
    · intro hz; exact hreach.trans hz
    · intro hz; exact hback.trans hz

lemma mem_libertiesOf_iff {b : Board} {s : Finset Pos} {l : Pos} :
    l ∈ libertiesOf b s ↔ ∃ x ∈ s, l ∈ neighbors x ∧ b l = 0 := by
  simp [libertiesOf, Finset.mem_biUnion, List.mem_filter]

lemma libertiesOf_card_pos {b : Board} {s : Finset Pos} {x l : Pos}
    (hx : x ∈ s) (hl : l ∈ neighbors x) (hb : b l = 0) :
    0 < (libertiesOf b s).card :=
  Finset.card_pos.2 ⟨l, mem_libertiesOf_iff.2 ⟨x, hx, hl, hb⟩⟩

lemma gg_of_ne {b : Board} {q : Pos} (h : b q ≠ 0) :
    get_group_and_liberties b q = (group b q, (libertiesOf b (group b q)).card) := by
  simp [get_group_and_liberties, h]

lemma opponentOf_ne_self (c : Nat) : opponentOf c ≠ c := by
  unfold opponentOf; split <;> omega

lemma opponentOf_ne_zero (c : Nat) : opponentOf c ≠ 0 := by
  unfold opponentOf; split <;> omega

lemma mem_foldr_union {l : List (Finset Pos)} {x : Pos} :
    x ∈ l.foldr (· ∪ ·) ∅ ↔ ∃ g ∈ l, x ∈ g := by
  induction l with
  | nil => simp
  | cons g l ih => simp [ih]

lemma mem_capturedSetAt {st : GoState} {p : Pos} {color : Nat} {x : Pos} :
    x ∈ capturedSetAt st p color ↔
      ∃ n ∈ neighbors p,
        x ∈ capturedGroupAt (tentativeBoard st p color) (opponentOf color) n := by
  simp only [capturedSetAt, mem_foldr_union, List.mem_map]
  constructor
  · rintro ⟨g, ⟨n, hn, rfl⟩, hx⟩; exact ⟨n, hn, hx⟩
  · rintro ⟨n, hn, hx⟩; exact ⟨_, ⟨n, hn, rfl⟩, hx⟩

lemma capturedGroupAt_spec {b1 : Board} {opp : Nat} {n : Pos} (hopp : opp ≠ 0)
    (h : capturedGroupAt b1 opp n ≠ ∅) :
    b1 n = opp ∧ (libertiesOf b1 (group b1 n)).card = 0 ∧
      capturedGroupAt b1 opp n = group b1 n := by
  by_cases hc : b1 n = opp ∧ (get_group_and_liberties b1 n).2 = 0
  · obtain ⟨h1, h2⟩ := hc
    have hne : b1 n ≠ 0 := by rw [h1]; exact hopp
    refine ⟨h1, ?_, ?_⟩
    · rw [gg_of_ne hne] at h2; exact h2
    · unfold capturedGroupAt
      rw [if_pos ⟨h1, h2⟩, gg_of_ne hne]
  · exfalso
    apply h
    unfold capturedGroupAt
    rw [if_neg hc]

lemma mem_capturedGroupAt {b1 : Board} {opp : Nat} {n x : Pos} (hopp : opp ≠ 0)
    (h : x ∈ capturedGroupAt b1 opp n) :
    b1 n = opp ∧ (libertiesOf b1 (group b1 n)).card = 0 ∧ x ∈ group b1 n := by
  have hne : capturedGroupAt b1 opp n ≠ ∅ := Finset.ne_empty_of_mem h
  obtain ⟨h1, h2, h3⟩ := capturedGroupAt_spec hopp hne
  exact ⟨h1, h2, h3 ▸ h⟩

lemma tentativeBoard_at {st : GoState} {p : Pos} {color : Nat} :
    tentativeBoard st p color p = color := by
  simp [tentativeBoard, setCell]

lemma tentativeBoard_ne {st : GoState} {p q : Pos} {color : Nat} (h : q ≠ p) :
    tentativeBoard st p color q = st.board q := by
  simp [tentativeBoard, setCell, h]

lemma captured_color {st : GoState} {p : Pos} {color : Nat} {x : Pos}
    (hx : x ∈ capturedSetAt st p color) :
    tentativeBoard st p color x = opponentOf color := by
  rcases mem_capturedSetAt.1 hx with ⟨n, hn, hmem⟩
  obtain ⟨h1, -, h3⟩ := mem_capturedGroupAt (opponentOf_ne_zero color) hmem
  rcases group_cases (inBoard_of_mem_neighbors hn) h3 with h | ⟨-, h⟩
  · exact h ▸ h1
  · exact h.trans h1

lemma placed_not_captured (st : GoState) (p : Pos) (color : Nat) :
    p ∉ capturedSetAt st p color := by
  intro h
  have := captured_color h
  rw [tentativeBoard_at] at this
  exact opponentOf_ne_self color this.symm

lemma boardAfterCapture_at (st : GoState) (p : Pos) (color : Nat) :
    boardAfterCapture st p color p = color := by
  unfold boardAfterCapture removeStones
  simp [placed_not_captured st p color, tentativeBoard_at]

lemma captured_group_sub {st : GoState} {p : Pos} {color : Nat} {x : Pos}
    (hx : x ∈ capturedSetAt st p color) :
    group (tentativeBoard st p color) x ⊆ capturedSetAt st p color ∧
      (libertiesOf (tentativeBoard st p color)
        (group (tentativeBoard st p color) x)).card = 0 := by
  rcases mem_capturedSetAt.1 hx with ⟨n, hn, hmem⟩
  obtain ⟨h1, h2, h3⟩ := mem_capturedGroupAt (opponentOf_ne_zero color) hmem
  have hnin : inBoard n := inBoard_of_mem_neighbors hn
  have hgx : group (tentativeBoard st p color) x = group (tentativeBoard st p color) n :=
    group_eq_of_mem hnin h3
  constructor
  · rw [hgx]
    intro z hz
    refine mem_capturedSetAt.2 ⟨n, hn, ?_⟩
    have hne : capturedGroupAt (tentativeBoard st p color) (opponentOf color) n ≠ ∅ :=
      Finset.ne_empty_of_mem hmem
    rw [(capturedGroupAt_spec (opponentOf_ne_zero color) hne).2.2]
    exact hz
  · rw [hgx]; exact h2

lemma boardAfterCapture_eq {st : GoState} {p : Pos} {c : Nat} {q : Pos} :
    boardAfterCapture st p c q =
      if q ∈ capturedSetAt st p c then 0 else tentativeBoard st p c q := rfl

lemma mem_group_iff_col {b : Board} {p q : Pos} {co : Nat} (hp : inBoard p)
    (hcol : b p = co) :
    q ∈ group b p ↔ Relation.ReflTransGen (stepRel b co) p q := by
  subst hcol; exact mem_group_iff hp

lemma group_congr {b b' : Board} {q : Pos} (hq : inBoard q) (hqq : b' q = b q)
    (hagree : ∀ x, b x = b q ↔ b' x = b q) : group b q = group b' q := by
  have hrel : ∀ x y : Pos, stepRel b (b q) x y ↔ stepRel b' (b' q) x y := by
    intro x y
    unfold stepRel
    rw [hqq]
    exact and_congr_right (fun _ => hagree y)
  ext z
  rw [mem_group_iff hq, mem_group_iff hq]
  constructor <;> intro h
  · exact Relation.ReflTransGen.mono (fun a c hac => (hrel a c).1 hac) h
  · exact Relation.ReflTransGen.mono (fun a c hac => (hrel a c).2 hac) h

lemma place_stone_ok {st : GoState} {p : Pos} {c : Nat}
    (h : (place_stone st p c).ok = true) :
    inBoard p ∧ st.board p = 0 ∧ st.koPoint ≠ some p ∧
      ¬(placedLibs st p c = 0 ∧ capturedSizeAt st p c = 0) := by
  unfold place_stone at h
  split_ifs at h with h1 h2 h3 h4
  all_goals exact ⟨h1, not_ne_iff.1 h2, h3, h4⟩

lemma place_stone_board_of_ok {st : GoState} {p : Pos} {c : Nat}
    (h : (place_stone st p c).ok = true) :
    (place_stone st p c).board = boardAfterCapture st p c := by
  unfold place_stone at h ⊢
  split_ifs at h ⊢ <;> simp_all

lemma place_stone_fail_state {st : GoState} {p : Pos} {c : Nat}
    (h : (place_stone st p c).ok = false) :
    (place_stone st p c).board = st.board ∧ (place_stone st p c).koPoint = st.koPoint := by
  unfold place_stone at h ⊢
  split_ifs at h ⊢ <;> simp_all

lemma placedLibs_pos_of_captured {st : GoState} {p : Pos} {c : Nat}
    (hc : c = 1 ∨ c = 2) (hsz : capturedSizeAt st p c ≠ 0) :
    0 < placedLibs st p c := by
  obtain ⟨n, hn, hne⟩ :
      ∃ n ∈ neighbors p,
        capturedGroupAt (tentativeBoard st p c) (opponentOf c) n ≠ ∅ := by
    by_contra hall
    push_neg at hall
    apply hsz
    unfold capturedSizeAt
    refine List.sum_eq_zero ?_
    intro x hx
    simp only [List.mem_map] at hx
    obtain ⟨g, ⟨m, hm, rfl⟩, rfl⟩ := hx
    rw [hall m hm]
    rfl
  obtain ⟨hcol, hlib0, hgeq⟩ := capturedGroupAt_spec (opponentOf_ne_zero c) hne
  have hnmem : n ∈ capturedSetAt st p c := by
    refine mem_capturedSetAt.2 ⟨n, hn, ?_⟩
    rw [hgeq]
    exact self_mem_group _ n
  have hb2n : boardAfterCapture st p c n = 0 := by
    rw [boardAfterCapture_eq, if_pos hnmem]
  have hcne : c ≠ 0 := by rcases hc with h | h <;> omega
  have hb2p : boardAfterCapture st p c p ≠ 0 := by
    rw [boardAfterCapture_at]; exact hcne
  unfold placedLibs
  rw [gg_of_ne hb2p]
  exact libertiesOf_card_pos (self_mem_group _ p) hn hb2n

lemma opp_group_no_lib_captured {st : GoState} {p : Pos} {c : Nat}
    (hempty : st.board p = 0)
    (ha : allGroupsAlive st.board) {q : Pos} (hqin : inBoard q)
    (hq : tentativeBoard st p c q = opponentOf c)
    (hlib : (libertiesOf (tentativeBoard st p c)
      (group (tentativeBoard st p c) q)).card = 0) :
    q ∈ capturedSetAt st p c := by
  have hoppne : opponentOf c ≠ 0 := opponentOf_ne_zero c
  have hoppc : opponentOf c ≠ c := opponentOf_ne_self c
  have hqnep : q ≠ p := by
    intro he
    rw [he, tentativeBoard_at] at hq
    exact hoppc hq.symm
  have hbq : st.board q = opponentOf c := by
    rw [← tentativeBoard_ne hqnep]
    exact hq
  -- the tentative stone at p is the only change; it has neither colour 0
  -- nor the opponent colour, so the opponent component of q is unchanged
  have hgrp : group st.board q = group (tentativeBoard st p c) q := by
    refine group_congr hqin (by rw [hq, hbq]) ?_
    intro x
    by_cases hx : x = p
    · rw [hx, hempty, hbq, tentativeBoard_at]
      constructor
      · intro h0; exact absurd h0.symm hoppne
      · intro h0; exact absurd h0.symm hoppc
    · rw [tentativeBoard_ne hx]
  -- the old component had a liberty; after placing p it has none, so the
  -- lost liberty is p itself, hence the group touches p and gets captured
  have halive := ha q hqin (by rw [hbq]; exact hoppne)
  rw [gg_of_ne (by rw [hbq]; exact hoppne)] at halive
  obtain ⟨l, hl⟩ := Finset.card_pos.1 halive
  obtain ⟨x, hxg, hlx, hl0⟩ := mem_libertiesOf_iff.1 hl
  have hxin : inBoard x := group_inBoard hqin hxg
  have hlp : l = p := by
    by_contra hlnep
    have hl1 : tentativeBoard st p c l = 0 := by rw [tentativeBoard_ne hlnep]; exact hl0
    have hxg1 : x ∈ group (tentativeBoard st p c) q := by
      rw [← hgrp]; exact hxg
    have : l ∈ libertiesOf (tentativeBoard st p c) (group (tentativeBoard st p c) q) :=
      mem_libertiesOf_iff.2 ⟨x, hxg1, hlx, hl1⟩
    rw [Finset.card_eq_zero.1 hlib] at this
    exact absurd this (Finset.not_mem_empty l)
  rw [hlp] at hlx
  have hxn : x ∈ neighbors p := mem_neighbors_symm hxin hlx
  have hbx : st.board x = opponentOf c := by
    rcases group_cases hqin hxg with h | ⟨-, h⟩
    · rw [h]; exact hbq
    · rw [h]; exact hbq
  have hxnep : x ≠ p := by
    intro he
    rw [he, hempty] at hbx
    exact hoppne hbx.symm
  have hb1x : tentativeBoard st p c x = opponentOf c := by
    rw [tentativeBoard_ne hxnep]; exact hbx
  have hxg1 : x ∈ group (tentativeBoard st p c) q := by
    rw [← hgrp]; exact hxg
  have hgxq : group (tentativeBoard st p c) x = group (tentativeBoard st p c) q :=
    group_eq_of_mem hqin hxg1
  refine mem_capturedSetAt.2 ⟨x, hxn, ?_⟩
  unfold capturedGroupAt
  rw [gg_of_ne (by rw [hb1x]; exact hoppne)]
  rw [if_pos ⟨hb1x, by rw [hgxq]; exact hlib⟩]
  rw [hgxq]
  exact self_mem_group _ q

lemma sameColor_group_eq {st : GoState} {p : Pos} {c : Nat}
    (hempty : st.board p = 0) (hc : c = 1 ∨ c = 2)
    {q : Pos} (hqin : inBoard q) (hbq : st.board q = c)
    (hqp : q ∉ group (boardAfterCapture st p c) p) :
    group (boardAfterCapture st p c) q = group st.board q := by
  have hcne : c ≠ 0 := by rcases hc with h | h <;> omega
  have hoppc : opponentOf c ≠ c := opponentOf_ne_self c
  have hqnep : q ≠ p := by
    intro he; rw [he, hempty] at hbq; exact hcne hbq.symm
  have hqncs : q ∉ capturedSetAt st p c := by
    intro hmem
    have := captured_color hmem
    rw [tentativeBoard_ne hqnep, hbq] at this
    exact hoppc this.symm
  have hb2q : boardAfterCapture st p c q = c := by
    rw [boardAfterCapture_eq, if_neg hqncs, tentativeBoard_ne hqnep]; exact hbq
  have hb2p : boardAfterCapture st p c p = c := boardAfterCapture_at st p c
  -- every same-colour cell other than p is unchanged between the boards
  have hkeep : ∀ z : Pos, z ≠ p → st.board z = c →
      boardAfterCapture st p c z = c := by
    intro z hznep hz
    have hzncs : z ∉ capturedSetAt st p c := by
      intro hmem
      have := captured_color hmem
      rw [tentativeBoard_ne hznep, hz] at this
      exact hoppc this.symm
    rw [boardAfterCapture_eq, if_neg hzncs, tentativeBoard_ne hznep]; exact hz
  have hkeep2 : ∀ z : Pos, z ≠ p → boardAfterCapture st p c z = c →
      st.board z = c := by
    intro z hznep hz
    rw [boardAfterCapture_eq] at hz
    split at hz
    · exact absurd hz.symm hcne
    · rw [tentativeBoard_ne hznep] at hz; exact hz
  ext z
  rw [mem_group_iff_col hqin hb2q, mem_group_iff_col hqin hbq]
  constructor
  · intro h
    -- transfer a path in the post-capture board back to the old board
    induction h with
    | refl => exact Relation.ReflTransGen.refl
    | tail hyz hstep ih =>
        rename_i y z
        have hznep : z ≠ p := by
          intro he
          have hzmem : z ∈ group (boardAfterCapture st p c) q :=
            (mem_group_iff_col hqin hb2q).2 (hyz.tail hstep)
          rw [he] at hzmem
          have hgg := group_eq_of_mem hqin hzmem
          apply hqp
          rw [hgg]
          exact self_mem_group _ q
        exact ih.tail ⟨hstep.1, hkeep2 z hznep hstep.2⟩
  · intro h
    induction h with
    | refl => exact Relation.ReflTransGen.refl
    | tail hyz hstep ih =>
        rename_i y z
        have hznep : z ≠ p := by
          intro he
          have h2 := hstep.2
          rw [he, hempty] at h2
          exact hcne h2.symm
        exact ih.tail ⟨hstep.1, hkeep z hznep hstep.2⟩

lemma opp_group_survives {st : GoState} {p : Pos} {c : Nat}
    {q : Pos} (hqin : inBoard q)
    (hq2 : boardAfterCapture st p c q = opponentOf c) :
    tentativeBoard st p c q = opponentOf c ∧
      q ∉ capturedSetAt st p c ∧
      group (tentativeBoard st p c) q ⊆ group (boardAfterCapture st p c) q := by
  have hoppne : opponentOf c ≠ 0 := opponentOf_ne_zero c
  have hqncs : q ∉ capturedSetAt st p c := by
    intro hmem
    rw [boardAfterCapture_eq, if_pos hmem] at hq2
    exact hoppne hq2.symm
  have hb1q : tentativeBoard st p c q = opponentOf c := by
    rw [boardAfterCapture_eq, if_neg hqncs] at hq2
    exact hq2
  refine ⟨hb1q, hqncs, ?_⟩
  -- no cell of q's component was captured: capture removes whole
  -- components, and q itself survived
  have hG1cs : ∀ z, z ∈ group (tentativeBoard st p c) q →
      z ∉ capturedSetAt st p c := by
    intro z hz hmem
    have hsub := (captured_group_sub hmem).1
    have hgg := group_eq_of_mem hqin hz
    apply hqncs
    apply hsub
    rw [hgg]
    exact self_mem_group _ q
  intro z hz
  rw [mem_group_iff_col hqin hb1q] at hz
  rw [mem_group_iff_col hqin hq2]
  induction hz with
  | refl => exact Relation.ReflTransGen.refl
  | tail hyz hstep ih =>
      rename_i y z
      have hzmem : z ∈ group (tentativeBoard st p c) q :=
        (mem_group_iff_col hqin hb1q).2 (hyz.tail hstep)
      have hzncs := hG1cs z hzmem
      refine ih.tail ⟨hstep.1, ?_⟩
      rw [boardAfterCapture_eq, if_neg hzncs]
      exact hstep.2

theorem place_stone_preserves_alive {st : GoState} {p : Pos} {c : Nat}
    (hc : c = 1 ∨ c = 2) (hv : validColors st.board) (ha : allGroupsAlive st.board)
    (hok : (place_stone st p c).ok = true) :
    allGroupsAlive (place_stone st p c).board := by
  obtain ⟨hin, hempty, -, hguard⟩ := place_stone_ok hok
  rw [place_stone_board_of_ok hok]
  intro q hqin hq0
  have hcne : c ≠ 0 := by rcases hc with h | h <;> omega
  have hb2p : boardAfterCapture st p c p = c := boardAfterCapture_at st p c
  have hlibpos : 0 < placedLibs st p c := by
    rcases Nat.eq_zero_or_pos (capturedSizeAt st p c) with hsz | hsz
    · rcases Nat.eq_zero_or_pos (placedLibs st p c) with hl | hl
      · exact absurd ⟨hl, hsz⟩ hguard
      · exact hl
    · exact placedLibs_pos_of_captured hc (Nat.pos_iff_ne_zero.1 hsz)
  by_cases hqp : q ∈ group (boardAfterCapture st p c) p
  · -- q belongs to the group of the freshly placed stone
    have hgeq := group_eq_of_mem hin hqp
    rw [gg_of_ne hq0]
    rw [hgeq]
    have := hlibpos
    unfold placedLibs at this
    rw [gg_of_ne (by rw [hb2p]; exact hcne)] at this
    exact this
  · have hqnep : q ≠ p := by
      intro he
      apply hqp
      rw [he]
      exact self_mem_group _ p
    have hqncs : q ∉ capturedSetAt st p c := by
      intro hmem
      rw [boardAfterCapture_eq, if_pos hmem] at hq0
      exact hq0 rfl
    have hb2q : boardAfterCapture st p c q = st.board q := by
      rw [boardAfterCapture_eq, if_neg hqncs, tentativeBoard_ne hqnep]
    have hqcol : st.board q = c ∨ st.board q = opponentOf c := by
      rcases hv q with h | h | h
      · rw [hb2q, h] at hq0; exact absurd rfl hq0
      · rcases hc with h2 | h2 <;> rw [h, h2] <;> simp [opponentOf]
      · rcases hc with h2 | h2 <;> rw [h, h2] <;> simp [opponentOf]
    rcases hqcol with hcol | hcol
    · -- a friendly group not connected to the new stone keeps its old
      -- component and at least one of its old liberties
      have hgeq := sameColor_group_eq hempty hc hqin hcol hqp
      have halive := ha q hqin (by rw [hcol]; exact hcne)
      rw [gg_of_ne (by rw [hcol]; exact hcne)] at halive
      obtain ⟨l, hl⟩ := Finset.card_pos.1 halive
      obtain ⟨x, hxg, hlx, hl0⟩ := mem_libertiesOf_iff.1 hl
      have hxin : inBoard x := group_inBoard hqin hxg
      have hbx : st.board x = c := by
        rcases group_cases hqin hxg with h | ⟨-, h⟩
        · rw [h]; exact hcol
        · rw [h]; exact hcol
      have hxnep : x ≠ p := by
        intro he; rw [he, hempty] at hbx; exact hcne hbx.symm
      have hb2x : boardAfterCapture st p c x = c := by
        have hxncs : x ∉ capturedSetAt st p c := by
          intro hmem
          have := captured_color hmem
          rw [tentativeBoard_ne hxnep, hbx] at this
          exact (opponentOf_ne_self c) this.symm
        rw [boardAfterCapture_eq, if_neg hxncs, tentativeBoard_ne hxnep]; exact hbx
      have hlnep : l ≠ p := by
        intro he
        rw [he] at hlx
        have hxg2 : x ∈ group (boardAfterCapture st p c) p :=
          (mem_group_iff_col hin hb2p).2
            (Relation.ReflTransGen.single ⟨mem_neighbors_symm hxin hlx, hb2x⟩)
        have hxg3 : x ∈ group (boardAfterCapture st p c) q := by
          rw [hgeq]; exact hxg
        have h1 := group_eq_of_mem hin hxg2
        have h2 := group_eq_of_mem hqin hxg3
        apply hqp
        rw [← h1, h2]
        exact self_mem_group _ q
      have hl2 : boardAfterCapture st p c l = 0 := by
        have hlncs : l ∉ capturedSetAt st p c := by
          intro hmem
          have := captured_color hmem
          rw [tentativeBoard_ne hlnep, hl0] at this
          exact (opponentOf_ne_zero c) this.symm
        rw [boardAfterCapture_eq, if_neg hlncs, tentativeBoard_ne hlnep]; exact hl0
      rw [gg_of_ne hq0, hgeq]
      exact libertiesOf_card_pos hxg hlx hl2
    · -- an opponent group that survived the capture sweep kept a liberty
      have hq2 : boardAfterCapture st p c q = opponentOf c := by rw [hb2q]; exact hcol
      obtain ⟨hb1q, -, hsub⟩ := opp_group_survives hqin hq2
      have hlibG1 :
          0 < (libertiesOf (tentativeBoard st p c)
            (group (tentativeBoard st p c) q)).card := by
        rcases Nat.eq_zero_or_pos (libertiesOf (tentativeBoard st p c)
            (group (tentativeBoard st p c) q)).card with h0 | h0
        · exact absurd (opp_group_no_lib_captured hempty ha hqin hb1q h0) hqncs
        · exact h0
      obtain ⟨l, hl⟩ := Finset.card_pos.1 hlibG1
      obtain ⟨x, hxg, hlx, hl0⟩ := mem_libertiesOf_iff.1 hl
      have hl2 : boardAfterCapture st p c l = 0 := by
        rw [boardAfterCapture_eq]
        split
        · rfl
        · exact hl0
      rw [gg_of_ne hq0]
      exact libertiesOf_card_pos (hsub hxg) hlx hl2

lemma validColors_afterCapture {st : GoState} {p : Pos} {c : Nat}
    (hv : validColors st.board) (hc : c = 1 ∨ c = 2) :
    validColors (boardAfterCapture st p c) := by
  intro q
  rw [boardAfterCapture_eq]
  split
  · left; rfl
  · unfold tentativeBoard setCell
    split
    · rcases hc with h | h <;> simp [h]
    · exact hv q

lemma place_stone_validColors {st : GoState} {p : Pos} {c : Nat}
    (hv : validColors st.board) (hc : c = 1 ∨ c = 2) :
    validColors (place_stone st p c).board := by
  rcases Bool.eq_false_or_eq_true (place_stone st p c).ok with h | h
  · rw [place_stone_board_of_ok h]; exact validColors_afterCapture hv hc
  · rw [(place_stone_fail_state h).1]; exact hv

lemma stepMove_preserves {st : GoState} {m : Pos × Nat}
    (hc : m.2 = 1 ∨ m.2 = 2) (hv : validColors st.board)
    (ha : allGroupsAlive st.board) :
    validColors (stepMove st m).board ∧ allGroupsAlive (stepMove st m).board := by
  unfold stepMove
  rcases Bool.eq_false_or_eq_true (place_stone st m.1 m.2).ok with h | h
  · exact ⟨place_stone_validColors hv hc, place_stone_preserves_alive hc hv ha h⟩
  · rw [(place_stone_fail_state h).1]
    exact ⟨hv, ha⟩

lemma foldl_stepMove_invariant :
    ∀ (ms : List (Pos × Nat)) (st : GoState),
      (∀ m ∈ ms, m.2 = 1 ∨ m.2 = 2) → validColors st.board →
      allGroupsAlive st.board →
      validColors (ms.foldl stepMove st).board ∧
        allGroupsAlive (ms.foldl stepMove st).board := by
  intro ms
  induction ms with
  | nil => intro st _ hv ha; exact ⟨hv, ha⟩
  | cons m ms ih =>
      intro st hc hv ha
      have h1 := stepMove_preserves (hc m (List.mem_cons_self m ms)) hv ha
      exact ih _ (fun x hx => hc x (List.mem_cons_of_mem m hx)) h1.1 h1.2

/-- C4.  Liberty invariant: for every sequence of place operations played
from the empty board (black and white stones), after each move — in
particular after each accepted move, rejected moves leave the state
unchanged — every group of stones on the board has at least one
liberty. -/
theorem liberty_invariant (ms : List (Pos × Nat))
    (hc : ∀ m ∈ ms, m.2 = 1 ∨ m.2 = 2) :
    allGroupsAlive (applyMoves ms).board :=
  (foldl_stepMove_invariant ms initialState hc (fun _ => Or.inl rfl)
    (fun _ _ h0 => absurd rfl h0)).2

theorem liberty_invariant_witness :
    (∀ m ∈ [(((3, 3) : Pos), 1), (((3, 4) : Pos), 2)], m.2 = 1 ∨ m.2 = 2) ∧
      allGroupsAlive (applyMoves [(((3, 3) : Pos), 1), (((3, 4) : Pos), 2)]).board :=
  ⟨by decide, liberty_invariant _ (by decide)⟩

lemma neighbors_nodup (p : Pos) : (neighbors p).Nodup := by
  unfold neighbors
  refine List.Nodup.filter _ ?_
  obtain ⟨a, b⟩ := p
  split_ifs <;> (simp [List.nodup_cons, Prod.ext_iff]; all_goals omega)

lemma mem_posList {p : Pos} : p ∈ posList ↔ inBoard p := by
  simp only [posList, List.mem_flatMap, List.mem_map, List.mem_range]
  constructor
  · rintro ⟨r, hr, c, hc, rfl⟩; exact ⟨hr, hc⟩
  · rintro ⟨h1, h2⟩; exact ⟨p.1, h1, p.2, h2, rfl⟩

lemma captured_inBoard {st : GoState} {p : Pos} {c : Nat} {x : Pos}
    (hx : x ∈ capturedSetAt st p c) : inBoard x := by
  rcases mem_capturedSetAt.1 hx with ⟨n, hn, hxn⟩
  obtain ⟨-, -, hg⟩ := mem_capturedGroupAt (opponentOf_ne_zero c) hxn
  exact group_inBoard (inBoard_of_mem_neighbors hn) hg

lemma capturedSize_zero_iff {st : GoState} {p : Pos} {c : Nat} :
    capturedSizeAt st p c = 0 ↔ capturedSetAt st p c = ∅ := by
  unfold capturedSizeAt
  rw [List.sum_eq_zero_iff]
  constructor
  · intro h
    rw [Finset.eq_empty_iff_forall_not_mem]
    intro x hx
    rcases mem_capturedSetAt.1 hx with ⟨n, hn, hxn⟩
    have h0 := h (capturedGroupAt (tentativeBoard st p c) (opponentOf c) n).card
      (by simp only [List.map_map, List.mem_map]; exact ⟨n, hn, rfl⟩)
    rw [Finset.card_eq_zero] at h0
    rw [h0] at hxn
    exact Finset.not_mem_empty x hxn
  · intro h x hxmem
    simp only [List.map_map, List.mem_map] at hxmem
    obtain ⟨n, hn, rfl⟩ := hxmem
    simp only [Function.comp_apply]
    rw [Finset.card_eq_zero, Finset.eq_empty_iff_forall_not_mem]
    intro z hz
    have hzmem : z ∈ capturedSetAt st p c := mem_capturedSetAt.2 ⟨n, hn, hz⟩
    rw [h] at hzmem
    exact Finset.not_mem_empty z hzmem

lemma card_foldr_union_le : ∀ l : List (Finset Pos),
    (l.foldr (· ∪ ·) ∅).card ≤ (l.map Finset.card).sum := by
  intro l
  induction l with
  | nil => simp
  | cons g l ih =>
      simp only [List.foldr_cons, List.map_cons, List.sum_cons]
      exact le_trans (Finset.card_union_le g _) (by omega)

lemma sum_map_card_eq_one :
    ∀ (l : List Pos), l.Nodup → ∀ (f : Pos → Finset Pos) (k : Pos),
      k ∈ l → f k = {k} → (∀ n ∈ l, n ≠ k → f n = ∅) →
      ((l.map f).map Finset.card).sum = 1 := by
  intro l
  induction l with
  | nil => intro _ f k hk; cases hk
  | cons a l ih =>
      intro hnd f k hk hfk hother
      simp only [List.map_cons, List.sum_cons]
      rcases List.mem_cons.1 hk with hka | hk2
      · rw [← hka, hfk, Finset.card_singleton]
        have h0 : ((l.map f).map Finset.card).sum = 0 := by
          refine List.sum_eq_zero ?_
          intro x hx
          simp only [List.map_map, List.mem_map] at hx
          obtain ⟨n, hn, rfl⟩ := hx
          have hnk : n ≠ k := by
            intro he
            apply (List.nodup_cons.1 hnd).1
            rw [he, hka] at hn
            exact hn
          simp only [Function.comp_apply]
          rw [hother n (List.mem_cons_of_mem a hn) hnk]
          rfl
        omega
      · have hak : a ≠ k := by
          intro he; exact (List.nodup_cons.1 hnd).1 (he ▸ hk2)
        rw [hother a (List.mem_cons_self a l) hak]
        have := ih (List.nodup_cons.1 hnd).2 f k hk2 hfk
          (fun n hn hnk => hother n (List.mem_cons_of_mem a hn) hnk)
        simpa using this

lemma capturedSet_singleton_of_size_one {st : GoState} {p : Pos} {c : Nat}
    (h : capturedSizeAt st p c = 1) : ∃ k, capturedSetAt st p c = {k} := by
  have hne : capturedSetAt st p c ≠ ∅ := by
    intro h0
    rw [← capturedSize_zero_iff] at h0
    omega
  have hle : (capturedSetAt st p c).card ≤ 1 := by
    have hb := card_foldr_union_le
      ((neighbors p).map (capturedGroupAt (tentativeBoard st p c) (opponentOf c)))
    unfold capturedSizeAt at h
    unfold capturedSetAt
    omega
  have hpos : 0 < (capturedSetAt st p c).card :=
    Finset.card_pos.2 (Finset.nonempty_iff_ne_empty.2 hne)
  exact Finset.card_eq_one.1 (le_antisymm hle hpos)

lemma capturedSize_eq_one_of_singleton {st : GoState} {p : Pos} {c : Nat} {k : Pos}
    (h : capturedSetAt st p c = {k}) : capturedSizeAt st p c = 1 := by
  have hk : k ∈ capturedSetAt st p c := by
    rw [h]; exact Finset.mem_singleton_self k
  rcases mem_capturedSetAt.1 hk with ⟨n0, hn0, hk0⟩
  have hsub : ∀ n ∈ neighbors p,
      capturedGroupAt (tentativeBoard st p c) (opponentOf c) n ⊆ {k} := by
    intro n hn x hx
    rw [← h]
    exact mem_capturedSetAt.2 ⟨n, hn, hx⟩
  have hseed : ∀ n ∈ neighbors p,
      capturedGroupAt (tentativeBoard st p c) (opponentOf c) n ≠ ∅ → n = k := by
    intro n hn hne
    refine Finset.mem_singleton.1 (hsub n hn ?_)
    rw [(capturedGroupAt_spec (opponentOf_ne_zero c) hne).2.2]
    exact self_mem_group _ n
  have hn0k : n0 = k := hseed n0 hn0 (Finset.ne_empty_of_mem hk0)
  rw [hn0k] at hn0 hk0
  have hfk : capturedGroupAt (tentativeBoard st p c) (opponentOf c) k = {k} := by
    refine Finset.Subset.antisymm (hsub k hn0) ?_
    rw [Finset.singleton_subset_iff]
    exact hk0
  unfold capturedSizeAt
  refine sum_map_card_eq_one (neighbors p) (neighbors_nodup p) _ k hn0 hfk ?_
  intro n hn hnk
  by_cases hne : capturedGroupAt (tentativeBoard st p c) (opponentOf c) n = ∅
  · exact hne
  · exact absurd (hseed n hn hne) hnk

lemma head_filter_singleton {l : List Pos} {s : Finset Pos} {k : Pos}
    (hk : k ∈ l) (hks : k ∈ s) (hsub : ∀ x ∈ s, x = k) :
    (l.filter (fun q => decide (q ∈ s))).head? = some k := by
  have hmem : k ∈ l.filter (fun q => decide (q ∈ s)) :=
    List.mem_filter.2 ⟨hk, by simpa using hks⟩
  have hne : l.filter (fun q => decide (q ∈ s)) ≠ [] := by
    intro h0; rw [h0] at hmem; cases hmem
  cases hfl : (l.filter (fun q => decide (q ∈ s))).head? with
  | none => exact absurd (List.head?_eq_none_iff.1 hfl) hne
  | some a =>
      have ha : a ∈ l.filter (fun q => decide (q ∈ s)) :=
        List.mem_of_mem_head? (by simp [hfl])
      have has : a ∈ s := by simpa using (List.mem_filter.1 ha).2
      rw [hsub a has]

lemma place_stone_ko_of_ok {st : GoState} {p : Pos} {c : Nat}
    (h : (place_stone st p c).ok = true) :
    (place_stone st p c).koPoint =
      if capturedSizeAt st p c = 1 ∧ placedLibs st p c = 1 then
        (posList.filter (fun q => decide (q ∈ capturedSetAt st p c))).head?
      else none := by
  unfold place_stone at h ⊢
  split_ifs at h ⊢ <;> simp_all

lemma place_stone_ko_reject {st : GoState} {k : Pos} (c' : Nat)
    (hkin : inBoard k) (h0 : st.board k = 0) (hko : st.koPoint = some k) :
    place_stone st k c' = ⟨false, st.board, st.koPoint, ∅, 0⟩ := by
  unfold place_stone
  rw [if_neg (not_not_intro hkin), if_neg (not_ne_iff.2 h0), if_pos hko]

/-- C5.  Ko rule: on every accepted `place_stone`, the resulting ko point
is `some k` exactly when the captured stones are the single coordinate `k`
and the placed stone's group is left with exactly one liberty (otherwise
the ko point is cleared to `none`); and the immediately following
`place_stone` at that ko point is rejected without changing the board. -/
theorem ko_rule (st : GoState) (p : Pos) (c : Nat)
    (hok : (place_stone st p c).ok = true) :
    (∀ k : Pos, (place_stone st p c).koPoint = some k ↔
        capturedSetAt st p c = {k} ∧ placedLibs st p c = 1) ∧
    ∀ k c', (place_stone st p c).koPoint = some k →
      (place_stone ⟨(place_stone st p c).board, (place_stone st p c).koPoint⟩
          k c').ok = false ∧
      (place_stone ⟨(place_stone st p c).board, (place_stone st p c).koPoint⟩
          k c').board = (place_stone st p c).board := by
  have hiff : ∀ k : Pos, (place_stone st p c).koPoint = some k ↔
      capturedSetAt st p c = {k} ∧ placedLibs st p c = 1 := by
    intro k
    rw [place_stone_ko_of_ok hok]
    constructor
    · intro hk
      split_ifs at hk with hcond
      · obtain ⟨hsz, hlib⟩ := hcond
        obtain ⟨k2, hk2⟩ := capturedSet_singleton_of_size_one hsz
        have hkmem : k ∈ posList.filter
            (fun q => decide (q ∈ capturedSetAt st p c)) :=
          List.mem_of_mem_head? (by simp [hk])
        have hkset : k ∈ capturedSetAt st p c := by
          simpa using (List.mem_filter.1 hkmem).2
        rw [hk2] at hkset
        have hkk2 : k = k2 := Finset.mem_singleton.1 hkset
        refine ⟨?_, hlib⟩
        rw [hk2, hkk2]
    · rintro ⟨hset, hlib⟩
      have hsz : capturedSizeAt st p c = 1 := capturedSize_eq_one_of_singleton hset
      rw [if_pos ⟨hsz, hlib⟩]
      have hk : k ∈ capturedSetAt st p c := by
        rw [hset]; exact Finset.mem_singleton_self k
      refine head_filter_singleton (mem_posList.2 (captured_inBoard hk)) hk ?_
      intro x hx
      rw [hset] at hx
      exact Finset.mem_singleton.1 hx
  refine ⟨hiff, ?_⟩
  intro k c' hko
  obtain ⟨hset, -⟩ := (hiff k).1 hko
  have hkmem : k ∈ capturedSetAt st p c := by
    rw [hset]; exact Finset.mem_singleton_self k
  have hkin : inBoard k := captured_inBoard hkmem
  have hb2k : (place_stone st p c).board k = 0 := by
    rw [place_stone_board_of_ok hok, boardAfterCapture_eq, if_pos hkmem]
  have hres : place_stone ⟨(place_stone st p c).board, (place_stone st p c).koPoint⟩
      k c' = ⟨false, (place_stone st p c).board, (place_stone st p c).koPoint, ∅, 0⟩ :=
    place_stone_ko_reject c' hkin hb2k hko
  rw [hres]
  exact ⟨rfl, rfl⟩

theorem ko_rule_witness :
    (place_stone koState (5, 5) 1).ok = true ∧
    ((place_stone koState (5, 5) 1).koPoint = some (5, 4) ↔
      capturedSetAt koState (5, 5) 1 = {(5, 4)} ∧ placedLibs koState (5, 5) 1 = 1) ∧
    ((place_stone ⟨(place_stone koState (5, 5) 1).board,
        (place_stone koState (5, 5) 1).koPoint⟩ (5, 4) 2).ok = false ∧
      (place_stone ⟨(place_stone koState (5, 5) 1).board,
        (place_stone koState (5, 5) 1).koPoint⟩ (5, 4) 2).board =
        (place_stone koState (5, 5) 1).board) :=
  ⟨by decide, (ko_rule koState (5, 5) 1 (by decide)).1 (5, 4),
    (ko_rule koState (5, 5) 1 (by decide)).2 (5, 4) 2 (by decide)⟩

/-- C6.  Suicide rule: when the coordinate is on the board, empty and not
the ko point, `place_stone` rejects exactly when the placed stone's group
has zero liberties after removing the captured opponent groups and no
opponent stones were captured; every rejection (this one included) hands
back the unchanged board and ko point, reverting the tentative stone. -/
theorem suicide_rule (st : GoState) (p : Pos) (c : Nat)
    (hin : inBoard p) (hempty : st.board p = 0) (hko : st.koPoint ≠ some p) :
    ((place_stone st p c).ok = false ↔
      placedLibs st p c = 0 ∧ capturedSetAt st p c = ∅) ∧
    ((place_stone st p c).ok = false →
      (place_stone st p c).board = st.board ∧
        (place_stone st p c).koPoint = st.koPoint) := by
  constructor
  · unfold place_stone
    rw [if_neg (not_not_intro hin), if_neg (not_ne_iff.2 hempty), if_neg hko]
    split_ifs with hcond
    · constructor
      · intro _
        exact ⟨hcond.1, capturedSize_zero_iff.1 hcond.2⟩
      · intro _
        rfl
    · constructor
      · intro h
        simp at h
      · rintro ⟨hl, hs⟩
        exact absurd ⟨hl, capturedSize_zero_iff.2 hs⟩ hcond
  · intro hfail
    exact place_stone_fail_state hfail

theorem suicide_rule_witness :
    (inBoard ((0, 0) : Pos) ∧ suicideState.board (0, 0) = 0 ∧
      suicideState.koPoint ≠ some (0, 0)) ∧
    (place_stone suicideState (0, 0) 1).ok = false ∧
    ((place_stone suicideState (0, 0) 1).ok = false ↔
      placedLibs suicideState (0, 0) 1 = 0 ∧ capturedSetAt suicideState (0, 0) 1 = ∅) ∧
    ((place_stone suicideState (0, 0) 1).board = suicideState.board ∧
      (place_stone suicideState (0, 0) 1).koPoint = suicideState.koPoint) :=
  ⟨⟨by decide, by decide, by decide⟩, by decide,
    (suicide_rule suicideState (0, 0) 1 (by decide) (by decide) (by decide)).1,
    (suicide_rule suicideState (0, 0) 1 (by decide) (by decide) (by decide)).2 (by decide)⟩

/-- C10.  Replay is total and never rejects a move: every move node of a
record is applied unconditionally by `restore_game_from_sgf_object`
(appending a move node to the sequence always applies one more
`replay_move`); after a replayed move the stone always sits on its cell —
in particular a stone replayed onto an occupied point overwrites it, a
replayed move on the ko point is accepted, and a replayed suicide stays
on the board — so every input on which the interactive `place_stone`
would take a rejection branch is still placed by replay. -/
theorem replay_total_never_rejects :
    (∀ (b : Board) (p : Pos) (stone : Nat), (replay_move b p stone).1 p = stone) ∧
    (∀ (props : List (String × String)) (nds : List SgfNode)
        (c : Option Nat) (m : Nat × Nat),
      restore_game_from_sgf_object ⟨props, nds ++ [SgfNode.move c m]⟩ =
        restore_step (restore_game_from_sgf_object ⟨props, nds⟩) (c, m)) ∧
    (∀ (b : Board) (ko : Option Pos) (p : Pos) (stone : Nat),
      (place_stone ⟨b, ko⟩ p stone).ok = false →
        (replay_move b p stone).1 p = stone) := by
  refine ⟨?_, ?_, ?_⟩
  · intro b p stone
    exact boardAfterCapture_at ⟨b, none⟩ p stone
  · intro props nds c m
    unfold restore_game_from_sgf_object movesOf
    rw [List.filterMap_append, List.foldl_append]
    rfl
  · intro b ko p stone _
    exact boardAfterCapture_at ⟨b, none⟩ p stone

theorem replay_total_never_rejects_witness :
    ((place_stone ⟨setCell (fun _ => 0) (3, 3) 1, none⟩ (3, 3) 2).ok = false) ∧
      (replay_move (setCell (fun _ => 0) (3, 3) 1) (3, 3) 2).1 (3, 3) = 2 :=
  ⟨by decide, replay_total_never_rejects.2.2 (setCell (fun _ => 0) (3, 3) 1)
    none (3, 3) 2 (by decide)⟩

/-- C7.  Session merge-preserve: the metadata write of `save_game_sgf`
sets only `game_id` and `current_turn` and the reloaded session keeps a
stored `vs_ai_mode = true`; `enable_vs_ai_mode` sets only `vs_ai_mode`
and the reloaded session keeps the stored `game_id` and
`current_turn`. -/
theorem session_merge_preserve (s : Session) (hvs : s.vs_ai_mode = some true)
    (gid : String) (turn : Nat) :
    (∀ s2, load_state_from_gcs (save_game_sgf_state (some s) gid turn) = some s2 →
      s2.vs_ai_mode = some true ∧ s2.game_id = some gid ∧
        s2.current_turn = some turn) ∧
    (∀ s3, load_state_from_gcs (enable_vs_ai_mode_state (some s)) = some s3 →
      s3.game_id = s.game_id ∧ s3.current_turn = s.current_turn ∧
        s3.vs_ai_mode = some true) := by
  constructor
  · intro s2 h2
    have : s2 = save_game_sgf_meta (some s) gid turn := by
      simpa [load_state_from_gcs, save_game_sgf_state, save_state_to_gcs] using h2.symm
    rw [this]
    exact ⟨hvs, rfl, rfl⟩
  · intro s3 h3
    have : s3 = enable_vs_ai_mode (some s) := by
      simpa [load_state_from_gcs, enable_vs_ai_mode_state, save_state_to_gcs] using h3.symm
    rw [this]
    exact ⟨rfl, rfl, rfl⟩

theorem session_merge_preserve_witness :
    ((⟨some "game_1", some 1, some true⟩ : Session).vs_ai_mode = some true) ∧
    (∀ s2, load_state_from_gcs
        (save_game_sgf_state (some ⟨some "game_1", some 1, some true⟩) "game_2" 2) =
          some s2 →
      s2.vs_ai_mode = some true ∧ s2.game_id = some "game_2" ∧
        s2.current_turn = some 2) :=
  ⟨rfl, (session_merge_preserve ⟨some "game_1", some 1, some true⟩ rfl "game_2" 2).1⟩

lemma mem_insertScoreDesc {x y : MoveStat} :
    ∀ {l : List MoveStat}, y ∈ insertScoreDesc x l ↔ y = x ∨ y ∈ l := by
  intro l
  induction l with
  | nil => simp [insertScoreDesc]
  | cons z zs ih =>
      rw [insertScoreDesc]
      split
      · simp only [List.mem_cons, ih]
        tauto
      · simp only [List.mem_cons]

lemma mem_sortScoreDesc {y : MoveStat} :
    ∀ {l : List MoveStat}, y ∈ sortScoreDesc l ↔ y ∈ l := by
  intro l
  induction l with
  | nil => simp [sortScoreDesc]
  | cons z zs ih =>
      rw [sortScoreDesc, mem_insertScoreDesc]
      simp [ih]

lemma mem_insertMoveAsc {x y : MoveStat} :
    ∀ {l : List MoveStat}, y ∈ insertMoveAsc x l ↔ y = x ∨ y ∈ l := by
  intro l
  induction l with
  | nil => simp [insertMoveAsc]
  | cons z zs ih =>
      rw [insertMoveAsc]
      split
      · simp only [List.mem_cons, ih]
        tauto
      · simp only [List.mem_cons]

lemma mem_sortMoveAsc {y : MoveStat} :
    ∀ {l : List MoveStat}, y ∈ sortMoveAsc l ↔ y ∈ l := by
  intro l
  induction l with
  | nil => simp [sortMoveAsc]
  | cons z zs ih =>
      rw [sortMoveAsc, mem_insertMoveAsc]
      simp [ih]

lemma length_insertScoreDesc {x : MoveStat} :
    ∀ {l : List MoveStat}, (insertScoreDesc x l).length = l.length + 1 := by
  intro l
  induction l with
  | nil => rfl
  | cons z zs ih =>
      rw [insertScoreDesc]
      split
      · simp [ih]
      · simp

lemma length_sortScoreDesc :
    ∀ {l : List MoveStat}, (sortScoreDesc l).length = l.length := by
  intro l
  induction l with
  | nil => rfl
  | cons z zs ih =>
      rw [sortScoreDesc, length_insertScoreDesc, ih]
      rfl

lemma length_insertMoveAsc {x : MoveStat} :
    ∀ {l : List MoveStat}, (insertMoveAsc x l).length = l.length + 1 := by
  intro l
  induction l with
  | nil => rfl
  | cons z zs ih =>
      rw [insertMoveAsc]
      split
      · simp [ih]
      · simp

lemma length_sortMoveAsc :
    ∀ {l : List MoveStat}, (sortMoveAsc l).length = l.length := by
  intro l
  induction l with
  | nil => rfl
  | cons z zs ih =>
      rw [sortMoveAsc, length_insertMoveAsc, ih]
      rfl

lemma sorted_insertMoveAsc {x : MoveStat} :
    ∀ {l : List MoveStat}, List.Pairwise (fun a b => a.move ≤ b.move) l →
      List.Pairwise (fun a b => a.move ≤ b.move) (insertMoveAsc x l) := by
  intro l
  induction l with
  | nil => intro _; simp [insertMoveAsc]
  | cons z zs ih =>
      intro h
      rw [List.pairwise_cons] at h
      rw [insertMoveAsc]
      split
      · next hlt =>
          rw [List.pairwise_cons]
          refine ⟨?_, ih h.2⟩
          intro a ha
          rcases mem_insertMoveAsc.1 ha with rfl | ha2
          · omega
          · exact h.1 a ha2
      · next hge =>
          rw [List.pairwise_cons]
          refine ⟨?_, List.pairwise_cons.2 h⟩
          intro a ha
          rcases List.mem_cons.1 ha with rfl | ha2
          · omega
          · have := h.1 a ha2
            omega

lemma sorted_sortMoveAsc :
    ∀ {l : List MoveStat}, List.Pairwise (fun a b => a.move ≤ b.move) (sortMoveAsc l) := by
  intro l
  induction l with
  | nil => simp [sortMoveAsc]
  | cons z zs ih =>
      rw [sortMoveAsc]
      exact sorted_insertMoveAsc ih

lemma mem_critical {moves : List MoveStat} {t : ℚ} {m : MoveStat}
    (hm : m ∈ filter_critical_moves moves t) :
    m ∈ moves ∧ ∃ q, m.score_loss = some q ∧ t < q := by
  obtain ⟨h1, h2⟩ := List.mem_filter.1 hm
  refine ⟨h1, ?_⟩
  cases hs : m.score_loss with
  | none => rw [hs] at h2; simp at h2
  | some q =>
      rw [hs] at h2
      simp only [decide_eq_true_eq] at h2
      exact ⟨q, rfl, h2⟩

lemma mem_handle_review_key_moves {moves : List MoveStat} {m : MoveStat}
    (hm : m ∈ handle_review_key_moves moves) :
    m ∈ moves ∧ ∃ q, m.score_loss = some q ∧ 2 < q := by
  unfold handle_review_key_moves get_top_score_loss_moves at hm
  rw [mem_sortMoveAsc] at hm
  have hm2 := List.mem_of_mem_take hm
  rw [mem_sortScoreDesc] at hm2
  exact mem_critical (List.mem_filter.1 hm2).1

/-- C1 counterexample: on the spec example, the review pipeline's
key-move selection (critical filter with threshold 2.0, then top 20)
returns the moves at indices [3, 4, 6] — the move with `score_loss` 0.1
and the move with `score_loss` 2.0 are dropped by the strict
`score_loss > 2.0` filter — not the four moves [3, 4, 5, 6] the claim
states. -/
theorem key_moves_counterexample :
    (handle_review_key_moves exampleMoves).map MoveStat.move = [3, 4, 6] ∧
      (handle_review_key_moves exampleMoves).map MoveStat.move ≠ [3, 4, 5, 6] := by
  constructor
  · decide
  · decide

/-- C1 amended: the review pipeline first drops every move whose
`score_loss` is null or not strictly greater than the critical threshold
2.0, then takes the top 20 of the survivors by `score_loss` descending
and re-sorts them ascending by move index.  Hence every returned move
comes from the input with a known `score_loss` strictly above 2.0, the
output is ascending in move index, its length is the smaller of 20 and
the number of critical moves, and the spec example yields the moves at
indices [3, 4, 6]. -/
theorem key_moves_amended (moves : List MoveStat) :
    (∀ m ∈ handle_review_key_moves moves,
        m ∈ moves ∧ ∃ q, m.score_loss = some q ∧ 2 < q) ∧
    List.Pairwise (fun a b => a.move ≤ b.move) (handle_review_key_moves moves) ∧
    (handle_review_key_moves moves).length =
      min 20 (filter_critical_moves moves 2).length ∧
    (handle_review_key_moves exampleMoves).map MoveStat.move = [3, 4, 6] := by
  refine ⟨fun m hm => mem_handle_review_key_moves hm, ?_, ?_, by decide⟩
  · unfold handle_review_key_moves get_top_score_loss_moves
    exact sorted_sortMoveAsc
  · unfold handle_review_key_moves get_top_score_loss_moves
    rw [length_sortMoveAsc, List.length_take, length_sortScoreDesc]
    have : (filter_critical_moves moves 2).filter (fun m => m.score_loss.isSome) =
        filter_critical_moves moves 2 := by
      refine List.filter_eq_self.2 ?_
      intro m hm
      obtain ⟨-, q, hq, -⟩ := mem_critical hm
      simp [hq]
    rw [this]

theorem key_moves_amended_witness :
    ((⟨3, some 5⟩ : MoveStat) ∈ handle_review_key_moves exampleMoves) ∧
      ((⟨3, some 5⟩ : MoveStat) ∈ exampleMoves ∧
        ∃ q, (⟨3, some 5⟩ : MoveStat).score_loss = some q ∧ 2 < q) :=
  ⟨by decide, (key_moves_amended exampleMoves).1 ⟨3, some 5⟩ (by decide)⟩

/-- C2 counterexample: a POST whose event processing raises is answered
with `500 "Internal Server Error"`, not `200 "OK"` — the exception is
caught by the handler's `except` block, which returns a 500 JSON
response. -/
theorem webhook_counterexample :
    webhook (some [sampleTextEvent]) failingHandler failingHandler =
        ⟨500, "Internal Server Error"⟩ ∧
      webhook (some [sampleTextEvent]) failingHandler failingHandler ≠ ⟨200, "OK"⟩ := by
  constructor
  · rfl
  · decide

/-- C2 amended: no exception escapes the webhook handler — every POST is
answered, with `200 "OK"` when body parsing and event processing complete
without an exception, and with `500 "Internal Server Error"` (errors
logged only) when parsing or processing raises. -/
theorem webhook_totality (body : Option (List WebhookEvent))
    (handleText handleFile : WebhookEvent → Except String Unit) :
    (webhook body handleText handleFile = ⟨200, "OK"⟩ ∨
      webhook body handleText handleFile = ⟨500, "Internal Server Error"⟩) ∧
    (∀ events, body = some events →
      processEvents handleText handleFile events = .ok () →
      webhook body handleText handleFile = ⟨200, "OK"⟩) ∧
    (∀ events err, body = some events →
      processEvents handleText handleFile events = .error err →
      webhook body handleText handleFile = ⟨500, "Internal Server Error"⟩) ∧
    (body = none → webhook body handleText handleFile = ⟨500, "Internal Server Error"⟩) := by
  refine ⟨?_, ?_, ?_, ?_⟩
  · cases body with
    | none => exact Or.inr rfl
    | some events =>
        simp only [webhook]
        split
        · exact Or.inl rfl
        · exact Or.inr rfl
  · intro events hb hp
    subst hb
    simp only [webhook]
    rw [hp]
  · intro events err hb hp
    subst hb
    simp only [webhook]
    rw [hp]
  · intro hb
    subst hb
    rfl

theorem webhook_totality_witness :
    (processEvents okHandler okHandler [sampleTextEvent] = .ok ()) ∧
      webhook (some [sampleTextEvent]) okHandler okHandler = ⟨200, "OK"⟩ :=
  ⟨rfl, (webhook_totality (some [sampleTextEvent]) okHandler okHandler).2.1
    [sampleTextEvent] rfl rfl⟩

lemma gtpResponses_proj : ∀ (n : Nat) (lines : List String),
    ((lines.enumFrom n).filterMap (fun il =>
        (lineResponse il.2).map (fun r => (r.1, r.2, il.1)))).map
      (fun r => (r.1, r.2.1)) = lines.filterMap lineResponse := by
  intro n lines
  induction lines generalizing n with
  | nil => rfl
  | cons a l ih =>
      cases h : lineResponse a with
      | none => simp [List.enumFrom, List.filterMap_cons, h, ih (n + 1)]
      | some r => simp [List.enumFrom, List.filterMap_cons, h, ih (n + 1)]

lemma scanBack_append : ∀ xs ys : List (Bool × List Char),
    scanBack (xs ++ ys) =
      match scanBack xs with
      | some d => some d
      | none => scanBack ys := by
  intro xs ys
  induction xs with
  | nil => rfl
  | cons r rs ih =>
      rw [List.cons_append, scanBack, scanBack]
      split
      · rfl
      · split
        · rfl
        · exact ih

lemma gtpResponses_proj0 (lines : List String) :
    (gtpResponses lines).map (fun r => (r.1, r.2.1)) = lines.filterMap lineResponse := by
  unfold gtpResponses
  rw [show lines.enum = List.enumFrom 0 lines from rfl]
  exact gtpResponses_proj 0 lines

lemma scanBack_eq_decision : ∀ lines : List String,
    scanBack ((lines.filterMap lineResponse).reverse) = lastNonEmptyEqDecision lines := by
  intro lines
  induction lines with
  | nil => rfl
  | cons a l ih =>
      rw [List.filterMap_cons, lastNonEmptyEqDecision]
      cases h : lineResponse a with
      | none =>
          rw [ih]
          cases lastNonEmptyEqDecision l <;> rfl
      | some r =>
          rw [List.reverse_cons, scanBack_append, ih]
          cases lastNonEmptyEqDecision l with
          | some d => rfl
          | none =>
              obtain ⟨b, t⟩ := r
              cases b with
              | true =>
                  rw [scanBack]
                  simp only [Bool.true_and]
                  split
                  · rfl
                  · rfl
              | false => rfl

lemma lastGenmove_foldl_none : ∀ (lines : List String) (n : Nat),
    (∀ line ∈ lines, isGenmoveCmdLine line = false) →
    (lines.enumFrom n).foldl
      (fun acc il => if isGenmoveCmdLine il.2 then some il.1 else acc) none = none := by
  intro lines
  induction lines with
  | nil => intro n _; rfl
  | cons a l ih =>
      intro n hng
      simp only [List.enumFrom, List.foldl_cons]
      rw [if_neg]
      · exact ih (n + 1) (fun x hx => hng x (List.mem_cons_of_mem a hx))
      · rw [hng a (List.mem_cons_self a l)]
        simp

lemma lastGenmove_none {lines : List String}
    (hng : ∀ line ∈ lines, isGenmoveCmdLine line = false) :
    lastGenmoveLine lines = none :=
  lastGenmove_foldl_none lines 0 hng

lemma decision_true_nonempty : ∀ {lines : List String} {t : List Char},
    lastNonEmptyEqDecision lines = some (true, t) → (stripChars t).isEmpty = false := by
  intro lines
  induction lines with
  | nil => intro t h; cases h
  | cons a l ih =>
      intro t h
      rw [lastNonEmptyEqDecision] at h
      cases hd : lastNonEmptyEqDecision l with
      | some d =>
          rw [hd] at h
          cases h
          exact ih hd
      | none =>
          rw [hd] at h
          cases hr : lineResponse a with
          | none => rw [hr] at h; cases h
          | some r =>
              rw [hr] at h
              obtain ⟨b, u⟩ := r
              cases b with
              | true =>
                  have h2 : (if (!(stripChars u).isEmpty) = true then
                      (some (true, u) : Option (Bool × List Char)) else none) =
                      some (true, t) := h
                  by_cases hne : (!(stripChars u).isEmpty) = true
                  · rw [if_pos hne] at h2
                    cases h2
                    simpa using hne
                  · rw [if_neg hne] at h2
                    cases h2
              | false => cases h

lemma string_mk_ne_empty {t : List Char} (h : t ≠ []) : String.mk t ≠ "" := by
  intro he
  apply h
  have : (String.mk t).data = ("" : String).data := by rw [he]
  simpa using this

/-- C8 counterexample: on a transcript that contains a line with
"genmove" (the command-anchored primary path), the parser returns the
first response after that line — here `D4` — not the last non-empty `=`
line before quit (`Q16`). -/
theorem genmove_parse_counterexample :
    run_katago_gtp_parse ["genmove B", "= D4", "= Q16", "="] = GtpOutcome.ok "D4" ∧
      run_katago_gtp_parse ["genmove B", "= D4", "= Q16", "="] ≠ GtpOutcome.ok "Q16" := by
  constructor
  · decide
  · decide

/-- C8 amended: when no stdout line contains "genmove" outside a response
(KataGo does not echo commands to stdout, so this covers the engine's
transcripts), the parser's answer is decided by the last non-empty `=`
response line, scanning from the end and stopping at a `?` line (an
error), and a `pass`/`resign` response becomes an explicit failure
instead of a coordinate; when some line does contain "genmove", the
first response after the last such line decides instead (see the
counterexample). -/
theorem genmove_parse_amended (lines : List String)
    (hng : ∀ line ∈ lines, isGenmoveCmdLine line = false) :
    run_katago_gtp_parse lines =
      match lastNonEmptyEqDecision lines with
      | some (true, t) =>
          if t.map Char.toLower = passChars ∨ t.map Char.toLower = resignChars then
            GtpOutcome.error ("KataGo returned " ++ String.mk t)
          else GtpOutcome.ok (String.mk t)
      | some (false, e) =>
          if String.mk e ≠ "" then GtpOutcome.error (String.mk e)
          else GtpOutcome.error noMoveMsg
      | none => GtpOutcome.error noMoveMsg := by
  have hproj := gtpResponses_proj0 lines
  have hbridge := scanBack_eq_decision lines
  simp only [run_katago_gtp_parse, lastGenmove_none hng]
  by_cases hresp : gtpResponses lines = []
  · have hfm : lines.filterMap lineResponse = [] := by
      rw [← hproj, hresp]
      rfl
    have hdec : lastNonEmptyEqDecision lines = none := by
      rw [← hbridge, hfm]
      rfl
    rw [hdec]
    simp [hresp, finalOutcome]
  · have hfall : fallbackScanTriples (gtpResponses lines) =
        match lastNonEmptyEqDecision lines with
        | some (true, t) => (String.mk t, "")
        | some (false, e) => ("", String.mk e)
        | none => ("", "") := by
      unfold fallbackScanTriples
      rw [hproj, hbridge]
    rw [if_pos (show True ∧ True ∧ gtpResponses lines ≠ [] from ⟨trivial, trivial, hresp⟩), hfall]
    cases hdec : lastNonEmptyEqDecision lines with
    | none =>
        simp [finalOutcome, noMoveMsg]
    | some d =>
        obtain ⟨b, t⟩ := d
        cases b with
        | true =>
            have hne : String.mk t ≠ "" := by
              apply string_mk_ne_empty
              intro he
              have hd2 := decision_true_nonempty hdec
              rw [he] at hd2
              simp [stripChars] at hd2
            show finalOutcome (String.mk t) "" = _
            unfold finalOutcome
            rw [if_neg (not_not_intro rfl), if_neg hne]
            rfl
        | false =>
            show finalOutcome "" (String.mk t) =
              if String.mk t ≠ "" then GtpOutcome.error (String.mk t)
              else GtpOutcome.error noMoveMsg
            unfold finalOutcome
            split
            · rfl
            · rw [if_pos rfl]

theorem genmove_parse_amended_witness :
    (∀ line ∈ ["=", "= Q16", "="], isGenmoveCmdLine line = false) ∧
      run_katago_gtp_parse ["=", "= Q16", "="] = GtpOutcome.ok "Q16" := by
  refine ⟨by decide, ?_⟩
  rw [genmove_parse_amended _ (by decide)]
  decide

lemma movesOf_map_move (props : List (String × String))
    (L : List (Option Nat × (Nat × Nat))) :
    movesOf ⟨props, L.map (fun mv => SgfNode.move mv.1 mv.2)⟩ = L := by
  induction L with
  | nil => rfl
  | cons x xs ih =>
      simp only [movesOf, List.map_cons, List.filterMap_cons] at ih ⊢
      rw [ih]

lemma lookup_copied_none (props : List (String × String)) :
    ∀ (ks : List String) (k : String), k ∉ ks →
      (ks.filterMap (fun prop =>
        (props.lookup prop).map (fun v => (prop, v)))).lookup k = none := by
  intro ks
  induction ks with
  | nil => intro k _; rfl
  | cons a as ih =>
      intro k hk
      have hka : k ≠ a := fun h => hk (by rw [h]; exact List.mem_cons_self a as)
      have hkas : k ∉ as := fun h => hk (List.mem_cons_of_mem a h)
      have hbeq : (k == a) = false := beq_eq_false_iff_ne.mpr hka
      cases hla : props.lookup a with
      | none => simp [List.filterMap_cons, hla, ih k hkas]
      | some v => simp [List.filterMap_cons, hla, List.lookup, hbeq, ih k hkas]

lemma lookup_copied_props (props : List (String × String)) :
    ∀ (ks : List String), ks.Nodup → ∀ k ∈ ks,
      (ks.filterMap (fun prop =>
        (props.lookup prop).map (fun v => (prop, v)))).lookup k = props.lookup k := by
  intro ks
  induction ks with
  | nil => intro _ k hk; cases hk
  | cons a as ih =>
      intro hnd k hk
      have hnd2 := List.nodup_cons.1 hnd
      rcases List.mem_cons.1 hk with hka | hkas
      · rw [hka]
        cases hla : props.lookup a with
        | none =>
            simp only [List.filterMap_cons, hla, Option.map_none']
            exact lookup_copied_none props as a hnd2.1
        | some v => simp [List.filterMap_cons, hla, List.lookup]
      · have hka : k ≠ a := fun h => hnd2.1 (by rw [← h]; exact hkas)
        have hbeq : (k == a) = false := beq_eq_false_iff_ne.mpr hka
        cases hla : props.lookup a with
        | none =>
            simp only [List.filterMap_cons, hla, Option.map_none']
            exact ih hnd2.2 k hkas
        | some v =>
            simp [List.filterMap_cons, hla, List.lookup, hbeq, ih hnd2.2 k hkas]

lemma restore_foldl_turn : ∀ (ms : List (Option Nat × (Nat × Nat)))
    (acc : Board × Option Pos × Nat) (c : Option Nat) (m : Nat × Nat),
    ms.getLast? = some (c, m) → (c = some 1 ∨ c = some 2) →
    (ms.foldl restore_step acc).2.2 = if c = some 2 then 1 else 2 := by
  intro ms
  induction ms with
  | nil => intro acc c m h _; cases h
  | cons x xs ih =>
      intro acc c m h hc
      cases xs with
      | nil =>
          have hx : x = (c, m) := by
            simpa using h
          subst hx
          rcases hc with h1 | h2
          · rw [h1]
            simp [restore_step, stoneValOf, h1]
          · rw [h2]
            simp [restore_step, stoneValOf, h2]
      | cons y ys =>
          rw [List.getLast?_cons_cons] at h
          rw [List.foldl_cons]
          exact ih _ c m h hc

/-- C9: with the source record stored and `0 < n` at most the move
count, `load <game_id> <n>` writes under the fresh id a record whose
main sequence is exactly the first `n` moves in order and whose root
carries the source's common properties, leaves every other stored
record — in particular the source — untouched, and overwrites the
session with the new game id and with `current_turn = 1` when the
`n`-th move is white and `2` otherwise. -/
theorem load_first_n_truncation (store : GameStore) (sess : Option Session)
    (src newId : String) (g : SgfRecord) (n : Nat)
    (lastc : Option Nat) (lastm : Nat × Nat)
    (hsrc : store src = some g)
    (hm : n ≤ countMoves g)
    (hfresh : newId ≠ src)
    (hlast : ((movesOf g).take n).getLast? = some (lastc, lastm))
    (hlastc : lastc = some 1 ∨ lastc = some 2) :
    ∃ (store2 : GameStore) (sess2 : Session) (tr : SgfRecord),
      handle_load_game_by_id_with_moves store sess src n newId =
        some (store2, some sess2) ∧
      store2 newId = some tr ∧
      movesOf tr = (movesOf g).take n ∧
      countMoves tr = n ∧
      (∀ k ∈ common_props, tr.rootProps.lookup k = g.rootProps.lookup k) ∧
      (∀ k, k ≠ newId → store2 k = store k) ∧
      store2 src = some g ∧
      sess2.game_id = some newId ∧
      sess2.current_turn = some (if lastc = some 2 then 1 else 2) := by
  have htr : movesOf (create_sgf_with_first_n_moves g n) = (movesOf g).take n :=
    movesOf_map_move _ _
  refine ⟨fun k => if k = newId then some (create_sgf_with_first_n_moves g n) else store k,
    ⟨some newId,
     some (restore_game_from_sgf_object (create_sgf_with_first_n_moves g n)).2.2,
     some ((load_state_from_gcs sess).elim false (fun s => s.vs_ai_mode.getD false))⟩,
    create_sgf_with_first_n_moves g n, ?_, ?_, htr, ?_, ?_, ?_, ?_, rfl, ?_⟩
  · unfold handle_load_game_by_id_with_moves
    simp only [hsrc]
    rw [if_neg (not_lt.mpr hm)]
    rfl
  · simp
  · rw [countMoves, htr, List.length_take]
    exact Nat.min_eq_left hm
  · intro k hk
    exact lookup_copied_props g.rootProps common_props (by decide) k hk
  · intro k hk
    simp [hk]
  · show (if src = newId then some (create_sgf_with_first_n_moves g n) else store src) =
      some g
    rw [if_neg (fun h => hfresh h.symm)]
    exact hsrc
  · show some (restore_game_from_sgf_object (create_sgf_with_first_n_moves g n)).2.2 = _
    rw [restore_game_from_sgf_object, htr,
      restore_foldl_turn _ _ lastc lastm hlast hlastc]

theorem load_first_n_truncation_witness :
    sampleLoadStore "game_A" = some sampleLoadRec ∧
    2 ≤ countMoves sampleLoadRec ∧
    (∃ (store2 : GameStore) (sess2 : Session) (tr : SgfRecord),
      handle_load_game_by_id_with_moves sampleLoadStore
          (some ⟨none, none, some true⟩) "game_A" 2 "game_B" =
        some (store2, some sess2) ∧
      store2 "game_B" = some tr ∧
      movesOf tr = (movesOf sampleLoadRec).take 2 ∧
      countMoves tr = 2 ∧
      (∀ k ∈ common_props,
        tr.rootProps.lookup k = sampleLoadRec.rootProps.lookup k) ∧
      (∀ k, k ≠ "game_B" → store2 k = sampleLoadStore k) ∧
      store2 "game_A" = some sampleLoadRec ∧
      sess2.game_id = some "game_B" ∧
      sess2.current_turn = some (if (some 2 : Option Nat) = some 2 then 1 else 2)) := by
  refine ⟨rfl, by decide, ?_⟩
  exact load_first_n_truncation sampleLoadStore (some ⟨none, none, some true⟩)
    "game_A" "game_B" sampleLoadRec 2 (some 2) (2, 2) rfl (by decide) (by decide)
    (by decide) (Or.inr rfl)

/-- C3: with engine-opponent mode on, modal configured and the move
accepted, `handle_board_move` emits exactly one effect — the genmove
spawn carrying the reply token and the user's board-image URL — and no
reply or push; on callback success the endpoint sends exactly one bundle
[user's board image, "🤖 AI 下在 {move}", engine's board image,
your-turn text], as a reply when the token is accepted and as a push
when it has expired. -/
theorem reply_token_survival (env : MoveEnv) (cenv : CallbackEnv)
    (target : String) (tok : Option String) (tokenValid : Bool) (p move : String)
    (hok : env.placeOk = true) (hurl : env.imageUrlValid = true)
    (hvs : env.vsAiMode = true) (hcfg : env.modalConfigured = true)
    (hsgf : env.sgfGcsPath = some p)
    (htarget : target ≠ "")
    (hst : cenv.status = "success")
    (hmv : cenv.move = some move) (hmvne : move ≠ "")
    (hco : cenv.coordsOk = true) (hpl : cenv.placeOk = true)
    (haiv : cenv.aiImageUrlValid = true)
    (huser : cenv.userBoardImageUrl = some env.imageUrl)
    (huserv : cenv.userUrlValid = true) :
    handle_board_move env target tok =
      [Effect.spawnGenmove p env.callbackUrl target env.aiTurn tok env.imageUrl] ∧
    (∀ t msgs, Effect.reply t msgs ∉ handle_board_move env target tok) ∧
    (∀ t msgs, Effect.push t msgs ∉ handle_board_move env target tok) ∧
    callback_get_ai_next_move cenv target tok tokenValid =
      send_message target tok tokenValid
        [LineMsg.image env.imageUrl,
         LineMsg.text ("🤖 AI 下在 " ++ move),
         LineMsg.image cenv.aiImageUrl,
         LineMsg.text ("現在輪到您（" ++
           (if (if cenv.currentTurn = 1 then 2 else 1) = 1 then "黑" else "白") ++
           "）下棋。")] ∧
    (∀ t, tok = some t → tokenValid = true →
      callback_get_ai_next_move cenv target tok tokenValid =
        [Effect.reply (some t)
          [LineMsg.image env.imageUrl,
           LineMsg.text ("🤖 AI 下在 " ++ move),
           LineMsg.image cenv.aiImageUrl,
           LineMsg.text ("現在輪到您（" ++
             (if (if cenv.currentTurn = 1 then 2 else 1) = 1 then "黑" else "白") ++
             "）下棋。")]]) ∧
    (tokenValid = false →
      callback_get_ai_next_move cenv target tok tokenValid =
        [Effect.push target
          [LineMsg.image env.imageUrl,
           LineMsg.text ("🤖 AI 下在 " ++ move),
           LineMsg.image cenv.aiImageUrl,
           LineMsg.text ("現在輪到您（" ++
             (if (if cenv.currentTurn = 1 then 2 else 1) = 1 then "黑" else "白") ++
             "）下棋。")]]) := by
  have hmove : handle_board_move env target tok =
      [Effect.spawnGenmove p env.callbackUrl target env.aiTurn tok env.imageUrl] := by
    unfold handle_board_move
    rw [hok, hurl, hvs, hcfg, hsgf]
    simp
  have hcb : callback_get_ai_next_move cenv target tok tokenValid =
      send_message target tok tokenValid
        [LineMsg.image env.imageUrl,
         LineMsg.text ("🤖 AI 下在 " ++ move),
         LineMsg.image cenv.aiImageUrl,
         LineMsg.text ("現在輪到您（" ++
           (if (if cenv.currentTurn = 1 then 2 else 1) = 1 then "黑" else "白") ++
           "）下棋。")] := by
    unfold callback_get_ai_next_move
    rw [hst, hmv, hco, hpl, haiv]
    simp only [Option.getD_some]
    rw [if_neg (by simp [htarget]), if_neg (by simp), if_neg hmvne]
    simp [userImagePrefix, huser, huserv]
  refine ⟨hmove, ?_, ?_, hcb, ?_, ?_⟩
  · intro t msgs hmem
    rw [hmove] at hmem
    simp at hmem
  · intro t msgs hmem
    rw [hmove] at hmem
    simp at hmem
  · intro t ht htv
    rw [hcb, ht, htv]
    rfl
  · intro htv
    rw [hcb, htv]
    cases tok with
    | none => rfl
    | some t => rfl

theorem reply_token_survival_witness :
    handle_board_move sampleMoveEnv "U1" (some "tokenA") =
      [Effect.spawnGenmove "gs://bucket/game.sgf" "https://callback" "U1" 2
        (some "tokenA") "https://img/user.png"] ∧
    callback_get_ai_next_move sampleCallbackEnv "U1" (some "tokenA") true =
      [Effect.reply (some "tokenA")
        [LineMsg.image "https://img/user.png",
         LineMsg.text ("🤖 AI 下在 " ++ "Q16"),
         LineMsg.image "https://img/ai.png",
         LineMsg.text ("現在輪到您（" ++ "黑" ++ "）下棋。")]] := by
  have h := reply_token_survival sampleMoveEnv sampleCallbackEnv "U1"
    (some "tokenA") true "gs://bucket/game.sgf" "Q16"
    rfl rfl rfl rfl rfl (by decide) rfl rfl (by decide) rfl rfl rfl rfl rfl
  exact ⟨h.1, h.2.2.2.2.1 "tokenA" rfl rfl⟩

end GoLinebot
